import Mathlib
/-!
Verification of the natural-language specification of the my-mcp repository
(Salesforce MCP provider: natural-language questions translated to SOQL,
executed with a bounded self-healing retry loop).
The definitions below are a shallow embedding of the JavaScript source:
* `src/mcp-provider-api/http-server.js` and the richer server variant in
  `src/unnamed/part_001` — SOQL generation (`generateSOQLWithContext`),
  the sanitizer (code-fence removal, `SELECT *` rewrite, placeholder
  substitution), the reference-resolution booleans
  (`isReferencingPrevious`, `isAddingFields`, `isNewQuery`), and the
  `/smart-query` endpoint pipeline;
* `src/mcp-provider-api/prompts.js` — the Salesforce-ID extraction in
  `buildSOQLPrompt`;
* the Healing Loop orchestrator (`generateAndExecuteSOQLWithHealing`),
  which is documented in the repository but whose implementation is not
  among the source files; it is modelled from the specification where
  noted.
Strings are modelled as `List Char`; JavaScript regular-expression
replacement is modelled by explicit left-to-right scanners that mirror the
exact patterns used by the source.
-/

/-- The apostrophe character (ASCII 39), used pervasively by the SOQL
placeholder patterns. -/
def qc : Char := Char.ofNat 39

/-- ASCII lower-casing, the case folding performed by the `i` flag of the
JavaScript regexes in the source (all patterns are ASCII). -/
def lc (c : Char) : Char :=
  if c.toNat ≥ 65 ∧ c.toNat ≤ 90 then Char.ofNat (c.toNat + 32) else c

/-- Lower-case a string (as a character list). -/
def lcs (s : List Char) : List Char := s.map lc

/-- JavaScript `\s` for the characters that occur in this code base
(space, tab, newline, carriage return); also the characters removed by
`String.prototype.trim`. -/
def isWS (c : Char) : Bool := c = ' ' ∨ c = '\t' ∨ c = '\n' ∨ c = '\r'

/-- JavaScript `\w`: ASCII letters, digits and underscore
(code points expressed numerically). -/
def isWordChar (c : Char) : Bool :=
  (97 ≤ c.toNat ∧ c.toNat ≤ 122) ∨ (65 ≤ c.toNat ∧ c.toNat ≤ 90) ∨
  (48 ≤ c.toNat ∧ c.toNat ≤ 57) ∨ c.toNat = 95

/-- ASCII alphanumeric (the `[a-zA-Z0-9]` character class). -/
def isAlnum (c : Char) : Bool :=
  (97 ≤ c.toNat ∧ c.toNat ≤ 122) ∨ (65 ≤ c.toNat ∧ c.toNat ≤ 90) ∨
  (48 ≤ c.toNat ∧ c.toNat ≤ 57)

/-- Case-sensitive substring test: JavaScript `String.prototype.includes`. -/
def occursCS (p s : List Char) : Bool :=
  (List.range (s.length + 1)).any fun i => List.take p.length (List.drop i s) = p

/-- Case-insensitive substring test (a `test` of an `i`-flagged regex whose
pattern is a literal). -/
def occursCI (p s : List Char) : Bool :=
  (List.range (s.length + 1)).any fun i => lcs (List.take p.length (List.drop i s)) = lcs p

/-- Generic left-to-right replacement scanner.  `step s` returns
`some (n, out)` when a match of length `n ≥ 1` starts at the head of `s`,
in which case the match is replaced by `out` and scanning resumes after
it; otherwise one character is copied.  This is the semantics of a global
`String.prototype.replace` for the (backtrack-free) patterns that appear
in the source. -/
def scanReplF (step : List Char → Option (Nat × List Char)) :
    Nat → List Char → List Char
  | _, [] => []
  | 0, s => s
  | fuel + 1, c :: t =>
    match step (c :: t) with
    | some (n, out) => out ++ scanReplF step fuel (List.drop (n - 1) t)
    | none => c :: scanReplF step fuel t

/-- The scanner, with enough fuel for its input. -/
def scanRepl (step : List Char → Option (Nat × List Char)) (s : List Char) :
    List Char :=
  scanReplF step s.length s

/-- Non-global (first-match-only) replacement scanner, the semantics of
`String.prototype.replace` with a non-`g` regex. -/
def replFirst (step : List Char → Option (Nat × List Char)) : List Char → List Char
  | [] => []
  | c :: t =>
    match step (c :: t) with
    | some (n, out) => out ++ List.drop (n - 1) t
    | none => c :: replFirst step t

/-- Left part of `String.prototype.trim`. -/
def trimL (s : List Char) : List Char := s.dropWhile isWS

/-- Right part of `String.prototype.trim`. -/
def trimR (s : List Char) : List Char := (s.reverse.dropWhile isWS).reverse

/-- `String.prototype.trim`. -/
def trimStr (s : List Char) : List Char := trimR (trimL s)

/-- The code-fence opener `(three backticks)sql` of the regex
`/(three backticks)sql\n?/g` in `generateSOQLWithContext`. -/
def fenceSql : List Char := "```sql".toList

/-- The fence opener followed by the optional newline. -/
def fenceSqlN : List Char := "```sql\n".toList

/-- A bare code fence (three backticks), pattern of `/(three backticks)\n?/g`. -/
def fence3 : List Char := "```".toList

/-- A bare fence followed by the optional newline. -/
def fence3N : List Char := "```\n".toList

/-- First fence-removal pass of the sanitizer:
`result.replace(/(three backticks)sql\n?/g, '')`.  The optional `\n` is
matched greedily, as by the JavaScript regex. -/
def strip1 : List Char → List Char :=
  scanRepl fun s =>
    if List.take 7 s = fenceSqlN then some (7, [])
    else if List.take 6 s = fenceSql then some (6, []) else none

/-- Second fence-removal pass: `.replace(/(three backticks)\n?/g, '')`. -/
def strip2 : List Char → List Char :=
  scanRepl fun s =>
    if List.take 4 s = fence3N then some (4, [])
    else if List.take 3 s = fence3 then some (3, []) else none

/-- The case-sensitive marker tested by
`if (result.includes('SELECT *'))` in `generateSOQLWithContext`. -/
def selPatCS : List Char := "SELECT *".toList

/-- Lower-cased form of the replacement regex `/SELECT \*/gi`. -/
def selPatCI : List Char := "select *".toList

/-- Replacement text of the unrestricted-selection rewrite. -/
def selRepl : List Char := "SELECT Id, Name".toList

/-- The global case-insensitive replacement
`result.replace(/SELECT \*/gi, 'SELECT Id, Name')`. -/
def selStarScan : List Char → List Char :=
  scanRepl fun s => if lcs (List.take 8 s) = selPatCI then some (8, selRepl) else none

/-- The unrestricted-selection rewrite of the sanitizer: the (case
sensitive) `includes` guard followed by the (case insensitive) global
replacement, exactly as in `generateSOQLWithContext`. -/
def selectStarStep (s : List Char) : List Char :=
  if occursCS selPatCS s then selStarScan s else s

/-- Wrap a string in single quotes, as the substitution templates
`(quote)${previousRecordIds[0]}(quote)` do. -/
def quoteWrap (w : List Char) : List Char := qc :: w ++ [qc]

/-- Detection pattern `/replace_with/i` (no quotes required). -/
def patReplaceWith : List Char := "replace_with".toList

/-- Detection pattern `/\[id\]/i` (no quotes required). -/
def patBracketId : List Char := "[id]".toList

/-- Detection pattern `/'id'/i`. -/
def patQId : List Char := quoteWrap ("id".toList)

/-- Detection pattern `/'xxx'/i`. -/
def patQXxx : List Char := quoteWrap ("xxx".toList)

/-- Detection pattern `/'003xxx'/i`. -/
def patQ003xxx : List Char := quoteWrap ("003xxx".toList)

/-- Detection pattern `/'003yyy'/i`. -/
def patQ003yyy : List Char := quoteWrap ("003yyy".toList)

/-- Detection of `/your_\w+_id/i`: some position starts with `your_`,
followed by at least one word character, followed by `_id`.  Pure
existence semantics, which coincides with regex-test semantics. -/
def detectYourId (s : List Char) : Bool :=
  (List.range (s.length + 1)).any fun i =>
    let t := List.drop i s
    lcs (List.take 5 t) = "your_".toList &&
    ((List.range (t.length + 1)).any fun k =>
      decide (1 ≤ k) &&
      decide ((List.take k (List.drop 5 t)).length = k) &&
      (List.take k (List.drop 5 t)).all isWordChar &&
      decide (lcs (List.take 3 (List.drop (5 + k) t)) = "_id".toList))

/-- `placeholderPatterns.some(pattern => pattern.test(result))` from
`generateSOQLWithContext` (`src/unnamed/part_001`), with the seven
catalogued placeholder patterns. -/
def detectPlaceholders (s : List Char) : Bool :=
  detectYourId s || occursCI patReplaceWith s || occursCI patBracketId s ||
  occursCI patQId s || occursCI patQXxx s || occursCI patQ003xxx s ||
  occursCI patQ003yyy s

/-- Greedy backtracking of `\w+` inside `/'your_\w+_id'/i`: the largest
`k` within the leading word-character run after which `_id'` follows. -/
def qpYourK (rest : List Char) : Option Nat :=
  ((List.range ((rest.takeWhile isWordChar).length + 1)).reverse).find? fun k =>
    decide (1 ≤ k) &&
    decide (lcs (List.take 4 (List.drop k rest)) = ("_id".toList ++ [qc]))

/-- Head match of `/'your_\w+_id'/i` given the text after the opening
quote; returns the full match length (both quotes included). -/
def qpLenYour (r : List Char) : Option Nat :=
  if lcs (List.take 5 r) = "your_".toList then
    match qpYourK (List.drop 5 r) with
    | some k => some (1 + 5 + k + 4)
    | none => none
  else none

/-- Head match of `/'replace_with[^']*'/i` given the text after the
opening quote. -/
def qpLenReplaceWith (r : List Char) : Option Nat :=
  if lcs (List.take 12 r) = patReplaceWith then
    let rest := List.drop 12 r
    let k := (rest.takeWhile fun c => c ≠ qc).length
    match List.drop k rest with
    | _ :: _ => some (1 + 12 + k + 1)
    | [] => none
  else none

/-- Head match of a fixed quoted literal (`'id'`, `'xxx'`, `'003xxx'`,
`'003yyy'`, `'[id]'`) given the text after the opening quote. -/
def qpLenLit (w : List Char) (r : List Char) : Option Nat :=
  if lcs (List.take (w.length + 1) r) = w ++ [qc] then some (w.length + 2) else none

/-- Head match of the quoted-placeholder alternation
`/('your_\w+_id'|'replace_with[^']*'|'\[id\]'|'id'|'xxx'|'003xxx'|'003yyy')/gi`,
alternatives tried in source order. -/
def qpLen (s : List Char) : Option Nat :=
  match s with
  | [] => none
  | c :: r =>
    if c = qc then
      (qpLenYour r).orElse fun _ =>
      (qpLenReplaceWith r).orElse fun _ =>
      (qpLenLit ("[id]".toList) r).orElse fun _ =>
      (qpLenLit ("id".toList) r).orElse fun _ =>
      (qpLenLit ("xxx".toList) r).orElse fun _ =>
      (qpLenLit ("003xxx".toList) r).orElse fun _ =>
      qpLenLit ("003yyy".toList) r
    else none

/-- The global quoted-placeholder replacement
`result.replace(/('your_\w+_id'|...)/gi, '${id}')`. -/
def quotedRepl (idF : List Char) : List Char → List Char :=
  scanRepl fun s =>
    match qpLen s with
    | some n => some (n, quoteWrap idF)
    | none => none

/-- Head match of `/WHERE\s+Id\s+IN\s*\([^)]+\)/i`, returning the length
of the match. -/
def inLen (s : List Char) : Option Nat :=
  if lcs (List.take 5 s) = "where".toList then
    let r1 := List.drop 5 s
    let w1 := (r1.takeWhile isWS).length
    if w1 = 0 then none else
    let r2 := List.drop w1 r1
    if lcs (List.take 2 r2) = "id".toList then
      let r3 := List.drop 2 r2
      let w2 := (r3.takeWhile isWS).length
      if w2 = 0 then none else
      let r4 := List.drop w2 r3
      if lcs (List.take 2 r4) = "in".toList then
        let r5 := List.drop 2 r4
        let w3 := (r5.takeWhile isWS).length
        let r6 := List.drop w3 r5
        match r6 with
        | c :: r7 =>
          if c = '(' then
            let inner := (r7.takeWhile fun d => d ≠ ')').length
            if inner = 0 then none
            else
              match List.drop inner r7 with
              | _ :: _ => some (5 + w1 + 2 + w2 + 2 + w3 + 1 + inner + 1)
              | [] => none
          else none
        | [] => none
      else none
    else none
  else none

/-- The ID list rendered by
`previousRecordIds.map(id => '${id}').join(', ')`. -/
def joinIds (ids : List (List Char)) : List Char :=
  List.intercalate (", ".toList) (ids.map quoteWrap)

/-- The replacement text `WHERE Id IN (${idsString})`. -/
def inReplacement (ids : List (List Char)) : List Char :=
  ("WHERE Id IN (".toList) ++ joinIds ids ++ [')']

/-- The first-match rewrite
`result.replace(/WHERE\s+Id\s+IN\s*\([^)]+\)/i, 'WHERE Id IN (...)')`. -/
def inRewrite (ids : List (List Char)) : List Char → List Char :=
  replFirst fun s =>
    match inLen s with
    | some n => some (n, inReplacement ids)
    | none => none

/-- Placeholder-substitution stage of the sanitizer in
`generateSOQLWithContext` (`src/unnamed/part_001`): when a catalogued
placeholder is detected, record IDs from the previous turn rewrite the
first `WHERE Id IN (...)` list and every quoted placeholder (using the
first ID); failing record IDs, a single ID recovered from the previous
statement (`fb`) rewrites quoted placeholders; with no identifier at all
the statement is left unchanged. -/
def placeholderStep (prevIds : List (List Char)) (fb : Option (List Char))
    (s : List Char) : List Char :=
  if detectPlaceholders s then
    match prevIds with
    | i :: _ => quotedRepl i (inRewrite prevIds s)
    | [] =>
      match fb with
      | some f => quotedRepl f s
      | none => s
  else s

/-- The full sanitizer applied to a non-clarification generation result:
code-fence removal, trim, unrestricted-selection rewrite, placeholder
substitution — in source order. -/
def sanitizeStmt (prevIds : List (List Char)) (fb : Option (List Char))
    (s : List Char) : List Char :=
  placeholderStep prevIds fb (selectStarStep (trimStr (strip2 (strip1 s))))

/-- Outcome of the statement generator `generateSOQLWithContext`: either a
clarification request or a (sanitized) candidate statement.  The source
returns an object with `needsClarification` set accordingly; the two
shapes are mutually exclusive. -/
inductive GenResult where
  | clarify (question : List Char)
  | stmt (soql : List Char)
deriving DecidableEq, Repr

/-- The ambiguity sentinel prefix checked by
`result.startsWith('CLARIFICATION_NEEDED:')`. -/
def sentinel : List Char := "CLARIFICATION_NEEDED:".toList

/-- Response parsing of `generateSOQLWithContext`: trim, sentinel check
(the clarification question is the text after the 21-character sentinel,
trimmed), otherwise sanitize into a candidate statement. -/
def parseGen (prevIds : List (List Char)) (fb : Option (List Char))
    (raw : List Char) : GenResult :=
  let r := trimStr raw
  if sentinel.isPrefixOf r then GenResult.clarify (trimStr (List.drop 21 r))
  else GenResult.stmt (sanitizeStmt prevIds fb r)

/-- The `\b` assertion before position `i` (JavaScript word boundary;
underscore is a word character). -/
def boundaryBeforeB (s : List Char) (i : Nat) : Bool :=
  decide (i = 0) || !(isWordChar (s.getD (i - 1) ' '))

/-- The `\b` assertion after position `j`. -/
def boundaryAfterB (s : List Char) (j : Nat) : Bool :=
  decide (j = s.length) || !(isWordChar (s.getD j ' '))

/-- Case-insensitive whole-word match of `w` at position `i` of `s`
(the semantics of `/\b(w)\b/i` when every alternative begins and ends
with a word character, as all the marker words do). -/
def wordAt (w s : List Char) (i : Nat) : Bool :=
  decide ((List.take w.length (List.drop i s)).length = w.length) &&
  decide (lcs (List.take w.length (List.drop i s)) = lcs w) &&
  boundaryBeforeB s i && boundaryAfterB s (i + w.length)

/-- `/\b(w)\b/i.test(s)` for a single word. -/
def hasWordCI (w s : List Char) : Bool :=
  (List.range (s.length + 1)).any (wordAt w s)

/-- `/\b(w1|w2|...)\b/i.test(s)`. -/
def hasAnyWordCI (ws : List (List Char)) (s : List Char) : Bool :=
  ws.any fun w => hasWordCI w s

/-- Backward-reference markers of
`/\b(above|those|these|previous|that|them)\b/i`. -/
def refWords : List (List Char) :=
  ["above".toList, "those".toList, "these".toList, "previous".toList,
   "that".toList, "them".toList]

/-- Field-addition markers of
`/\b(related|also|as well|include|show|add|too)\b/i`. -/
def addWords : List (List Char) :=
  ["related".toList, "also".toList, "as well".toList, "include".toList,
   "show".toList, "add".toList, "too".toList]

/-- Relationship keywords of `/\b(related|from|of|for)\b/i`. -/
def relWords : List (List Char) :=
  ["related".toList, "from".toList, "of".toList, "for".toList]

/-- Aggregation keywords of `/\b(average|avg|sum|total|count)\b/i`. -/
def aggWords : List (List Char) :=
  ["average".toList, "avg".toList, "sum".toList, "total".toList,
   "count".toList]

/-- Anaphora keywords of `/\b(above|those|these)\b/i` used by the
aggregation-on-previous test. -/
def aggRefWords : List (List Char) :=
  ["above".toList, "those".toList, "these".toList]

/-- `isReferencingPrevious` from `generateSOQLWithContext`
(`src/unnamed/part_001`, line 941). -/
def isReferencingPrevious (q : List Char) : Bool := hasAnyWordCI refWords q

/-- `isAddingFields` (line 942): field-addition marker AND a backward
reference. -/
def isAddingFields (q : List Char) : Bool :=
  hasAnyWordCI addWords q && isReferencingPrevious q

/-- `hasRelatedKeywords` (line 1028). -/
def hasRelatedKeywords (q : List Char) : Bool := hasAnyWordCI relWords q

/-- `isDifferentObject` (line 1027): both object names truthy (non-empty)
and different modulo case. -/
def isDifferentObject (prev det : Option (List Char)) : Bool :=
  match prev, det with
  | some p, some d => !p.isEmpty && !d.isEmpty && decide (lcs d ≠ lcs p)
  | _, _ => false

/-- `isNewQuery` (line 1029): a different explicit object, no
relationship keywords, no field-addition phrasing. -/
def isNewQuery (q : List Char) (prev det : Option (List Char)) : Bool :=
  isDifferentObject prev det && !hasRelatedKeywords q && !isAddingFields q

/-- How the conversation context is classified for the generation prompt
(the `if`/`else if` on lines 1032 and 1098 of `src/unnamed/part_001`). -/
inductive ContextKind where
  | continuation
  | topicSwitch
  | fresh
deriving DecidableEq, Repr

/-- Classification of the current question against the previous turn:
continuation context is built when the history is non-empty, a backward
reference is present and the question is not a new query; the new-query
branch is taken when the history is non-empty and `isNewQuery` holds;
otherwise no conversation context is added. -/
def classifyContext (q : List Char) (prev det : Option (List Char))
    (histNonempty : Bool) : ContextKind :=
  if histNonempty && isReferencingPrevious q && !isNewQuery q prev det then
    ContextKind.continuation
  else if histNonempty && isNewQuery q prev det then ContextKind.topicSwitch
  else ContextKind.fresh

/-- `isAggregationOnPrevious` from the `/smart-query` endpoint:
aggregation keyword AND anaphora keyword AND non-empty history. -/
def isAggregationOnPrevious (q : List Char) (histLen : Nat) : Bool :=
  hasAnyWordCI aggWords q && hasAnyWordCI aggRefWords q && decide (0 < histLen)

/-- A match of `/\b([a-zA-Z0-9]{15}|[a-zA-Z0-9]{18})\b/g` of length `n`
starting at position `i`: `n` alphanumeric characters enclosed in word
boundaries. -/
def idMatchAt (s : List Char) (i n : Nat) : Bool :=
  decide ((List.take n (List.drop i s)).length = n) &&
  (List.take n (List.drop i s)).all isAlnum &&
  boundaryBeforeB s i && boundaryAfterB s (i + n)

/-- The Salesforce-ID extraction `question.match(idPattern) || []` of
`buildSOQLPrompt` (`src/mcp-provider-api/prompts.js`).  Because every
match spans a full maximal alphanumeric run delimited by non-word
characters, matches are pairwise disjoint and the left-to-right global
scan returns exactly the positions accepted by `idMatchAt`, in order;
the 15-alternative is tried before the 18-alternative, and at a given
position at most one of the two can satisfy the trailing boundary. -/
def extractIds (s : List Char) : List (List Char) :=
  (List.range (s.length + 1)).filterMap fun i =>
    if idMatchAt s i 15 then some (List.take 15 (List.drop i s))
    else if idMatchAt s i 18 then some (List.take 18 (List.drop i s))
    else none

/-- Accumulator-based splitter behind `alnumTokens` (`cur` holds the
current run, reversed). -/
def alnumTokensAux : List Char → List Char → List (List Char)
  | [], cur => if cur.isEmpty then [] else [cur.reverse]
  | c :: t, cur =>
    if isAlnum c then alnumTokensAux t (c :: cur)
    else if cur.isEmpty then alnumTokensAux t []
    else cur.reverse :: alnumTokensAux t []

/-- Spec-level notion used to state the identifier-extraction claim: the
maximal alphanumeric tokens of a text ("alphanumeric tokens of length 15
or 18" in the specification's words).  This definition follows the
specification, not the source, and is only compared against
`extractIds`. -/
def alnumTokens (s : List Char) : List (List Char) := alnumTokensAux s []

/-- One completed conversation turn as supplied by the caller of
`/smart-query`; a result row is modelled by its optional `Id` field,
which is all the sanitizer reads from it. -/
structure ConvTurn where
  question : List Char
  soql : List Char
  results : List (Option (List Char))
deriving DecidableEq, Repr

/-- The observable outcome of one `/smart-query` request: the returned
`soql` field, the returned rows, an optional clarification question, the
list of statements executed against Salesforce (calls of `query`), and
whether the previous-results calculation prompt was sent to the LLM. -/
structure SmartResponse where
  soql : Option (List Char)
  records : List (Option (List Char))
  clarification : Option (List Char)
  executed : List (List Char)
  usedCalcLLM : Bool
deriving DecidableEq, Repr

/-- `previousRecordIds`: the `Id`s of the previous turn's result rows,
first 200. -/
def prevRecordIds (hist : List ConvTurn) : List (List Char) :=
  match hist.reverse with
  | t :: _ => (t.results.filterMap id).take 200
  | [] => []

/-- Head match of `/WHERE\s+Id\s*=\s*'([^']+)'/i`, returning the captured
identifier. -/
def whereIdEqAt (s : List Char) : Option (List Char) :=
  if lcs (List.take 5 s) = "where".toList then
    let r1 := List.drop 5 s
    let w1 := (r1.takeWhile isWS).length
    if w1 = 0 then none else
    let r2 := List.drop w1 r1
    if lcs (List.take 2 r2) = "id".toList then
      let r3 := List.drop 2 r2
      let w2 := (r3.takeWhile isWS).length
      let r4 := List.drop w2 r3
      match r4 with
      | c :: r5 =>
        if c = '=' then
          let w3 := (r5.takeWhile isWS).length
          let r6 := List.drop w3 r5
          match r6 with
          | d :: r7 =>
            if d = qc then
              let cap := r7.takeWhile fun e => e ≠ qc
              if cap.length = 0 then none
              else
                match List.drop cap.length r7 with
                | _ :: _ => some cap
                | [] => none
            else none
          | [] => none
        else none
      | [] => none
    else none
  else none

/-- First match of `/WHERE\s+Id\s*=\s*'([^']+)'/i` over a whole string
(the `idFromPrevious` fallback of the sanitizer). -/
def extractWhereIdEq : List Char → Option (List Char)
  | [] => none
  | c :: t =>
    match whereIdEqAt (c :: t) with
    | some cap => some cap
    | none => extractWhereIdEq t

/-- The sanitizer's fallback identifier: one recovered from the previous
turn's statement text. -/
def prevFallbackId (hist : List ConvTurn) : Option (List Char) :=
  match hist.reverse with
  | t :: _ => extractWhereIdEq t.soql
  | [] => none

/-- The `/smart-query` request pipeline (`src/unnamed/part_001` and
`src/mcp-provider-api/http-server.js`): the aggregation-on-previous
branch answers from the previous turn's cached rows (consulting the LLM
only when cached rows exist) with a `null` statement and empty record
set and performs no Salesforce query; otherwise the generator output
`genRaw` is parsed, a clarification is returned without executing, and a
plain statement is executed exactly once via `exec`. -/
def smartQuery (question : List Char) (hist : List ConvTurn)
    (genRaw : List Char) (exec : List Char → List (Option (List Char))) :
    SmartResponse :=
  if isAggregationOnPrevious question hist.length then
    match hist.reverse with
    | last :: _ =>
      if last.results.length = 0 then ⟨none, [], none, [], false⟩
      else ⟨none, [], none, [], true⟩
    | [] => ⟨none, [], none, [], false⟩
  else
    match parseGen (prevRecordIds hist) (prevFallbackId hist) genRaw with
    | GenResult.clarify q => ⟨none, [], some q, [], false⟩
    | GenResult.stmt sql => ⟨some sql, exec sql, none, [sql], false⟩

/-- Error taxonomy of the healing loop (spec §7). -/
inductive ErrKind where
  | fatal
  | recoverable
  | unknown
deriving DecidableEq, Repr

/-- A parsed generator outcome with its mutually exclusive tags
(`CandidateStatement` of spec §3). -/
inductive Candidate where
  | stmt (text : List Char)
  | ambiguous (question : List Char)
  | impossible (reason : List Char)
deriving DecidableEq, Repr

/-- Result of one execution of a statement by the execution
collaborator. -/
inductive ExecR where
  | ok (rowCount : Nat)
  | err (msg : List Char)
deriving DecidableEq, Repr

/-- One recorded healing attempt. -/
structure HealAttempt where
  attemptNumber : Nat
  statement : List Char
  errorMessage : Option (List Char)
deriving DecidableEq, Repr

/-- Terminal states of the healing loop. -/
inductive HealOutcome where
  | succeeded
  | fatal
  | exhausted
  | ambiguous
  | impossible
deriving DecidableEq, Repr

/-- Result returned to the caller of the healing loop. -/
structure HealResult where
  outcome : HealOutcome
  attempts : List HealAttempt
  clarification : Option (List Char)
deriving DecidableEq, Repr

/-- Modelled from the spec: the body of the Healing Loop orchestrator
`generateAndExecuteSOQLWithHealing`, whose implementation is not among
the source files (only its architecture documentation and its prompts
are).  Per spec §4.5/§3: the generator (driven by the accumulated
attempt history) either ends the loop with an ambiguous/impossible
outcome before any execution, or yields a statement which is executed;
success and fatal-classified errors terminate immediately, while
recoverable/unknown errors consume budget and loop back with the error
history.  `n` is the current attempt number, `fuel` the remaining
budget. -/
def healFrom (gen : List HealAttempt → Candidate) (exec : List Char → ExecR)
    (classify : List Char → ErrKind) (n fuel : Nat) (acc : List HealAttempt) :
    HealResult :=
  match gen acc with
  | Candidate.ambiguous q => ⟨HealOutcome.ambiguous, acc, some q⟩
  | Candidate.impossible _ => ⟨HealOutcome.impossible, acc, none⟩
  | Candidate.stmt txt =>
    match exec txt with
    | ExecR.ok _ => ⟨HealOutcome.succeeded, acc ++ [⟨n, txt, none⟩], none⟩
    | ExecR.err msg =>
      match classify msg with
      | ErrKind.fatal => ⟨HealOutcome.fatal, acc ++ [⟨n, txt, some msg⟩], none⟩
      | _ =>
        match fuel with
        | 0 => ⟨HealOutcome.exhausted, acc ++ [⟨n, txt, some msg⟩], none⟩
        | fuel' + 1 =>
          healFrom gen exec classify (n + 1) fuel' (acc ++ [⟨n, txt, some msg⟩])
termination_by fuel

/-- Modelled from the spec: entry point of the healing loop
(`generateAndHeal` of spec §6), starting at attempt number 1 with a
budget of `maxAttempts` total attempts. -/
def generateAndHeal (gen : List HealAttempt → Candidate)
    (exec : List Char → ExecR) (classify : List Char → ErrKind)
    (maxAttempts : Nat) : HealResult :=
  healFrom gen exec classify 1 (maxAttempts - 1) []

/-- Spec-level notion used to state the unrestricted-selection claim: a
statement "requests all fields" when it contains `select *` in any
letter case.  This definition follows the specification's words, not the
source, and is only compared against `selectStarStep`. -/
def requestsAllFieldsSpec (s : List Char) : Bool := occursCI selPatCI s

theorem char_toNat_ofNat {n : Nat} (hv : n.isValidChar) :
    (Char.ofNat n).toNat = n := by
  rw [Char.ofNat, dif_pos hv]
  simp [Char.ofNatAux, Char.toNat, UInt32.toNat]

theorem char_toNat_inj {c d : Char} (h : c.toNat = d.toNat) : c = d := by
  have := congrArg Char.ofNat h
  rwa [Char.ofNat_toNat, Char.ofNat_toNat] at this

theorem toNat_lc (c : Char) :
    (lc c).toNat = if c.toNat ≥ 65 ∧ c.toNat ≤ 90 then c.toNat + 32 else c.toNat := by
  unfold lc
  split
  · next h => exact char_toNat_ofNat (Or.inl (by omega))
  · next h => rfl

/-- Lower-casing preserves the alphanumeric class. -/
theorem lc_alnum {c : Char} (h : isAlnum c = true) : isAlnum (lc c) = true := by
  simp only [isAlnum, decide_eq_true_eq] at h ⊢
  rw [toNat_lc]
  split <;> omega

/-- The lower-casing of an alphanumeric character is never a
non-alphanumeric character. -/
theorem lc_alnum_ne {c d : Char} (h : isAlnum c = true)
    (hd : isAlnum d = false) : lc c ≠ d := by
  intro he
  rw [← he, lc_alnum h] at hd
  exact Bool.noConfusion hd

/-- `occursCS` agrees with list-infix containment. -/
theorem occursCS_iff_isInfix (p s : List Char) : occursCS p s = true ↔ p <:+: s := by
  constructor
  · intro h
    simp only [occursCS, List.any_eq_true, List.mem_range, decide_eq_true_eq] at h
    obtain ⟨i, _, hi⟩ := h
    refine ⟨List.take i s, List.drop (i + p.length) s, ?_⟩
    have h2 : List.take p.length (List.drop i s) ++ List.drop (i + p.length) s
        = List.drop i s := by
      have := List.take_append_drop p.length (List.drop i s)
      rwa [List.drop_drop] at this
    rw [hi] at h2
    calc
      List.take i s ++ p ++ List.drop (i + p.length) s
          = List.take i s ++ (p ++ List.drop (i + p.length) s) := by
            rw [List.append_assoc]
      _ = List.take i s ++ List.drop i s := by rw [h2]
      _ = s := List.take_append_drop i s
  · rintro ⟨u, v, huv⟩
    simp only [occursCS, List.any_eq_true, List.mem_range, decide_eq_true_eq]
    refine ⟨u.length, ?_, ?_⟩
    · have : s.length = u.length + p.length + v.length := by
        rw [← huv]; simp; omega
      omega
    · rw [← huv, List.append_assoc, List.drop_left, List.take_left]

/-- Substring occurrence is monotone along infixes. -/
theorem occursCS_mono {p s t : List Char} (hst : s <:+: t)
    (h : occursCS p s = true) : occursCS p t = true := by
  rw [occursCS_iff_isInfix] at h ⊢
  exact h.trans hst

/-- If `p` does not occur in `c :: t` then it does not occur in `t`. -/
theorem occursCS_false_tail {p : List Char} {c : Char} {t : List Char}
    (h : occursCS p (c :: t) = false) : occursCS p t = false := by
  by_contra hne
  have : occursCS p t = true := by
    cases hx : occursCS p t
    · exact absurd hx hne
    · rfl
  have hmono : occursCS p (c :: t) = true :=
    occursCS_mono ⟨[c], [], by simp⟩ this
  rw [h] at hmono
  exact Bool.noConfusion hmono

/-- If `p` does not occur in `s` then in particular `s` does not start
with `p`. -/
theorem occursCS_false_head {p s : List Char}
    (h : occursCS p s = false) : List.take p.length s ≠ p := by
  intro hx
  have : occursCS p s = true := by
    simp only [occursCS, List.any_eq_true, List.mem_range]
    exact ⟨0, by omega, by simpa using hx⟩
  rw [h] at this
  exact Bool.noConfusion this

/-- Any sufficient fuel computes the same scan. -/
theorem scanReplF_fuel (step : List Char → Option (Nat × List Char)) :
    ∀ (fuel : Nat) (s : List Char), s.length ≤ fuel →
      scanReplF step fuel s = scanRepl step s := by
  intro fuel
  induction fuel using Nat.strong_induction_on with
  | _ fuel ih =>
    intro s hs
    match fuel, s with
    | 0, s =>
      have : s = [] := List.eq_nil_of_length_eq_zero (by omega)
      subst this
      rfl
    | fuel + 1, [] => rfl
    | fuel + 1, c :: t =>
      have ht : t.length ≤ fuel := by
        simp only [List.length_cons] at hs
        omega
      rw [scanRepl]
      cases hstep : step (c :: t) with
      | some p =>
        obtain ⟨n, out⟩ := p
        simp only [List.length_cons, scanReplF, hstep]
        have hd : (List.drop (n - 1) t).length ≤ t.length := by
          rw [List.length_drop]; omega
        rw [ih fuel (by omega) (List.drop (n - 1) t) (by omega),
            ih t.length (by omega) (List.drop (n - 1) t) hd]
      | none =>
        simp only [List.length_cons, scanReplF, hstep]
        rw [ih fuel (by omega) t ht, ih t.length (by omega) t (by omega)]

/-- Unfolding the scanner at a match. -/
theorem scanRepl_match (step : List Char → Option (Nat × List Char))
    (c : Char) (t : List Char) (n : Nat) (out : List Char)
    (h : step (c :: t) = some (n, out)) :
    scanRepl step (c :: t) = out ++ scanRepl step (List.drop (n - 1) t) := by
  rw [scanRepl]
  simp only [List.length_cons, scanReplF, h]
  rw [scanReplF_fuel step t.length (List.drop (n - 1) t)
      (by rw [List.length_drop]; omega)]

/-- Unfolding the scanner at a non-match. -/
theorem scanRepl_nomatch (step : List Char → Option (Nat × List Char))
    (c : Char) (t : List Char) (h : step (c :: t) = none) :
    scanRepl step (c :: t) = c :: scanRepl step t := by
  rw [scanRepl]
  simp only [List.length_cons, scanReplF, h]
  rw [scanReplF_fuel step t.length t (by omega)]

/-- A scanner copies verbatim any leading region in which no match starts. -/
theorem scanRepl_passthrough (step : List Char → Option (Nat × List Char))
    (u v : List Char) (h : ∀ i < u.length, step (List.drop i (u ++ v)) = none) :
    scanRepl step (u ++ v) = u ++ scanRepl step v := by
  induction u with
  | nil => simp
  | cons c u ih =>
    have h0 : step (c :: (u ++ v)) = none := by
      have := h 0 (by simp)
      simpa using this
    rw [List.cons_append, scanRepl_nomatch step _ _ h0]
    simp only [List.cons_append, List.cons.injEq, true_and]
    exact ih fun i hi => by
      have := h (i + 1) (by simp; omega)
      simpa using this

/-- A scanner whose step never fires is the identity. -/
theorem scanRepl_id (step : List Char → Option (Nat × List Char))
    (s : List Char) (h : ∀ i < s.length, step (List.drop i s) = none) :
    scanRepl step s = s := by
  have h0 : scanRepl step [] = [] := rfl
  have := scanRepl_passthrough step s [] (by simpa using h)
  simpa [h0] using this

/-- `replFirst` copies verbatim any leading region in which no match starts. -/
theorem replFirst_passthrough (step : List Char → Option (Nat × List Char))
    (u v : List Char) (h : ∀ i < u.length, step (List.drop i (u ++ v)) = none) :
    replFirst step (u ++ v) = u ++ replFirst step v := by
  induction u with
  | nil => simp
  | cons c u ih =>
    have h0 : step (c :: (u ++ v)) = none := by
      have := h 0 (by simp)
      simpa using this
    rw [List.cons_append, replFirst, h0]
    simp only [List.cons_append, List.cons.injEq, true_and]
    exact ih fun i hi => by
      have := h (i + 1) (by simp; omega)
      simpa using this

/-- `replFirst` with a never-firing step is the identity. -/
theorem replFirst_id (step : List Char → Option (Nat × List Char))
    (s : List Char) (h : ∀ i < s.length, step (List.drop i s) = none) :
    replFirst step s = s := by
  have h0 : replFirst step [] = [] := by rw [replFirst]
  have := replFirst_passthrough step s [] (by simpa using h)
  simpa [h0] using this

theorem dropWhile_dropWhile (p : Char → Bool) (l : List Char) :
    List.dropWhile p (List.dropWhile p l) = List.dropWhile p l := by
  induction l with
  | nil => simp
  | cons c t ih =>
    by_cases h : p c
    · simp [List.dropWhile_cons, h, ih]
    · simp [List.dropWhile_cons, h]

theorem trimL_idem (s : List Char) : trimL (trimL s) = trimL s :=
  dropWhile_dropWhile isWS s

theorem trimR_idem (s : List Char) : trimR (trimR s) = trimR s := by
  simp [trimR, dropWhile_dropWhile]

/-- The head of a left-trimmed string never satisfies `isWS`. -/
theorem trimL_head (s : List Char) (c : Char) (t : List Char)
    (h : trimL s = c :: t) : isWS c = false := by
  have := List.head?_dropWhile_not isWS s
  rw [trimL] at h
  rw [h] at this
  simpa using this

/-- `trimR` is a prefix of its argument. -/
theorem trimR_prefix (s : List Char) : trimR s <+: s := by
  have h : s.reverse.dropWhile isWS <:+ s.reverse := List.dropWhile_suffix isWS
  obtain ⟨u, hu⟩ := h
  refine ⟨u.reverse, ?_⟩
  have := congrArg List.reverse hu
  simpa [trimR] using this

/-- `trimL` is a suffix of its argument. -/
theorem trimL_suffix (s : List Char) : trimL s <:+ s := List.dropWhile_suffix isWS

/-- Trimming is idempotent. -/
theorem trimStr_idem (s : List Char) : trimStr (trimStr s) = trimStr s := by
  unfold trimStr
  have hpre : trimR (trimL s) <+: trimL s := trimR_prefix (trimL s)
  have h1 : trimL (trimR (trimL s)) = trimR (trimL s) := by
    cases hy : trimR (trimL s) with
    | nil => simp [trimL]
    | cons c t =>
      have hc : isWS c = false := by
        obtain ⟨u, hu⟩ := hpre
        rw [hy] at hu
        exact trimL_head s c (t ++ u) (by rw [← hu]; simp)
      simp [trimL, List.dropWhile_cons, hc]
  rw [h1, trimR_idem]

/-- Trimming yields an infix of the original string. -/
theorem trimStr_isInfix (s : List Char) : trimStr s <:+: s := by
  have h1 : trimR (trimL s) <+: trimL s := trimR_prefix (trimL s)
  have h2 : trimL s <:+ s := trimL_suffix s
  exact h1.isInfix.trans h2.isInfix

/-- A witness position where `take`/`drop` recovers `p` yields occurrence. -/
theorem occursCS_of_take {p s : List Char} (i : Nat)
    (h : List.take p.length (List.drop i s) = p) : occursCS p s = true := by
  by_cases hi : i ≤ s.length
  · simp only [occursCS, List.any_eq_true, List.mem_range, decide_eq_true_eq]
    exact ⟨i, by omega, h⟩
  · have hd : List.drop i s = [] := List.drop_eq_nil_of_le (by omega)
    rw [hd, List.take_nil] at h
    simp only [occursCS, List.any_eq_true, List.mem_range, decide_eq_true_eq]
    exact ⟨0, by omega, by rw [← h]; simp⟩

/-- If a string contains no triple-backtick at all, the first fence pass
leaves it unchanged. -/
theorem strip1_id {s : List Char} (h : occursCS fence3 s = false) :
    strip1 s = s := by
  apply scanRepl_id
  intro i _
  by_cases h7 : List.take 7 (List.drop i s) = fenceSqlN
  · exfalso
    have h3 : List.take 3 (List.drop i s) = fence3 := by
      have := List.take_take 3 7 (List.drop i s)
      rw [h7] at this
      simpa [fenceSqlN, fence3] using this.symm
    rw [occursCS_of_take i (by simpa [fence3] using h3)] at h
    exact Bool.noConfusion h
  · by_cases h6 : List.take 6 (List.drop i s) = fenceSql
    · exfalso
      have h3 : List.take 3 (List.drop i s) = fence3 := by
        have := List.take_take 3 6 (List.drop i s)
        rw [h6] at this
        simpa [fenceSql, fence3] using this.symm
      rw [occursCS_of_take i (by simpa [fence3] using h3)] at h
      exact Bool.noConfusion h
    · simp [h7, h6]

/-- If a string contains no triple-backtick, the second fence pass leaves
it unchanged. -/
theorem strip2_id {s : List Char} (h : occursCS fence3 s = false) :
    strip2 s = s := by
  apply scanRepl_id
  intro i _
  by_cases h4 : List.take 4 (List.drop i s) = fence3N
  · exfalso
    have h3 : List.take 3 (List.drop i s) = fence3 := by
      have := List.take_take 3 4 (List.drop i s)
      rw [h4] at this
      simpa [fence3N, fence3] using this.symm
    rw [occursCS_of_take i (by simpa [fence3] using h3)] at h
    exact Bool.noConfusion h
  · by_cases h3 : List.take 3 (List.drop i s) = fence3
    · exfalso
      rw [occursCS_of_take i (by simpa [fence3] using h3)] at h
      exact Bool.noConfusion h
    · simp [h4, h3]

/-- Statements without the exact uppercase `SELECT *` marker pass the
rewrite unchanged. -/
theorem selectStarStep_no_marker {s : List Char}
    (h : occursCS selPatCS s = false) : selectStarStep s = s := by
  simp [selectStarStep, h]

/-- Case-insensitive analogue of `occursCS_of_take`. -/
theorem occursCI_of_take {p s : List Char} (i : Nat)
    (h : lcs (List.take p.length (List.drop i s)) = lcs p) : occursCI p s = true := by
  by_cases hi : i ≤ s.length
  · simp only [occursCI, List.any_eq_true, List.mem_range, decide_eq_true_eq]
    exact ⟨i, by omega, h⟩
  · have hd : List.drop i s = [] := List.drop_eq_nil_of_le (by omega)
    rw [hd, List.take_nil] at h
    have hp : p = [] := by
      have h2 : lcs p = [] := by rw [← h]; simp [lcs]
      simpa [lcs] using h2
    subst hp
    simp only [occursCI, List.any_eq_true, List.mem_range, decide_eq_true_eq]
    exact ⟨0, by omega, by simp⟩

/-- An occurrence position refutes `occursCI p s = false`. -/
theorem occursCI_false_no_take {p s : List Char} (i : Nat)
    (hf : occursCI p s = false)
    (h : lcs (List.take p.length (List.drop i s)) = lcs p) : False := by
  rw [occursCI_of_take i h] at hf
  exact Bool.noConfusion hf

/-- The empty statement is a fixed point of the sanitizer, for any
identifier context. -/
theorem sanitize_nil (prevIds : List (List Char)) (fb : Option (List Char)) :
    sanitizeStmt prevIds fb [] = [] := by
  have h1 : strip1 [] = [] := rfl
  have h2 : strip2 [] = [] := rfl
  have h3 : trimStr ([] : List Char) = [] := by simp [trimStr, trimL, trimR]
  have h4 : selectStarStep [] = [] := by
    rw [selectStarStep, if_neg]
    rw [show occursCS selPatCS [] = false from by decide]
    simp
  have h5 : placeholderStep prevIds fb [] = [] := by
    unfold placeholderStep
    rw [show detectPlaceholders [] = false from by decide]
    simp
  rw [sanitizeStmt, h1, h2, h3, h4, h5]

/-- C2: for every request whose execution error is fatal-classified, the
(spec-modelled) healing loop performs exactly one execution attempt and
terminates with the fatal outcome, regardless of the `maxAttempts`
budget. -/
theorem C2_fatal_one_attempt (gen : List HealAttempt → Candidate)
    (exec : List Char → ExecR) (classify : List Char → ErrKind)
    (maxAttempts : Nat) (txt msg : List Char)
    (hgen : gen [] = Candidate.stmt txt)
    (hexec : exec txt = ExecR.err msg)
    (hcls : classify msg = ErrKind.fatal) :
    (generateAndHeal gen exec classify maxAttempts).outcome = HealOutcome.fatal ∧
    (generateAndHeal gen exec classify maxAttempts).attempts
      = [⟨1, txt, some msg⟩] := by
  unfold generateAndHeal
  rw [healFrom]
  simp [hgen, hexec, hcls]

/-- Witness for C2 at a concrete fatal (session-invalid) scenario with
budget 3. -/
theorem C2_fatal_one_attempt_witness :
    (generateAndHeal (fun _ => Candidate.stmt ("SELECT Id FROM Account".toList))
      (fun _ => ExecR.err ("INVALID_SESSION_ID: Session expired or invalid".toList))
      (fun _ => ErrKind.fatal) 3).outcome = HealOutcome.fatal ∧
    (generateAndHeal (fun _ => Candidate.stmt ("SELECT Id FROM Account".toList))
      (fun _ => ExecR.err ("INVALID_SESSION_ID: Session expired or invalid".toList))
      (fun _ => ErrKind.fatal) 3).attempts
      = [⟨1, "SELECT Id FROM Account".toList,
          some ("INVALID_SESSION_ID: Session expired or invalid".toList)⟩] :=
  C2_fatal_one_attempt _ _ _ 3 _ _ rfl rfl rfl

/-- C3: when the generation response begins with the ambiguity sentinel
(and the request is not served by the aggregation-on-previous branch),
the `/smart-query` pipeline returns the clarification question and
executes no statement against the data service. -/
theorem C3_clarification_zero_exec (q : List Char) (hist : List ConvTurn)
    (genRaw : List Char) (exec : List Char → List (Option (List Char)))
    (hagg : isAggregationOnPrevious q hist.length = false)
    (hsent : sentinel.isPrefixOf (trimStr genRaw) = true) :
    smartQuery q hist genRaw exec
      = ⟨none, [], some (trimStr (List.drop 21 (trimStr genRaw))), [], false⟩ := by
  simp [smartQuery, parseGen, hagg, hsent]

/-- Witness for C3 at a concrete ambiguous response. -/
theorem C3_clarification_zero_exec_witness :
    smartQuery ("list accounts".toList) []
        ("CLARIFICATION_NEEDED: which object do you mean?".toList) (fun _ => [])
      = ⟨none, [],
          some (trimStr (List.drop 21
            (trimStr ("CLARIFICATION_NEEDED: which object do you mean?".toList)))),
          [], false⟩ :=
  C3_clarification_zero_exec _ _ _ _ (by decide) (by decide)

/-- C9 counterexample: a whitespace-only generation response is returned
as a plain candidate whose statement text is empty — not as an
impossibility outcome, which the generator does not have. -/
theorem C9_counterexample :
    parseGen [] none ("   ".toList) = GenResult.stmt [] := by decide

/-- C9 amended: an empty or whitespace-only response always yields the
plain-statement outcome with empty statement text (for any identifier
context); clarification and plain statement remain mutually
exclusive by construction. -/
theorem C9_empty_response (prevIds : List (List Char))
    (fb : Option (List Char)) (raw : List Char) (h : trimStr raw = []) :
    parseGen prevIds fb raw = GenResult.stmt [] := by
  unfold parseGen
  simp only [h]
  rw [show sentinel.isPrefixOf ([] : List Char) = false from by decide]
  simp [sanitize_nil]

/-- Witness for the amended C9 at a concrete whitespace response. -/
theorem C9_empty_response_witness :
    parseGen [("001A".toList)] none (" \n \t ".toList) = GenResult.stmt [] :=
  C9_empty_response _ _ _ (by decide)

/-- C10 counterexample: an aggregation-on-previous request whose previous
turn cached no rows is answered without consulting the text-generation
collaborator (the claim asserts the answer is produced via the
collaborator). -/
theorem C10_counterexample :
    isAggregationOnPrevious ("average of those".toList) 1 = true ∧
    (smartQuery ("average of those".toList)
      [⟨"top 5 opportunities".toList, "SELECT Id FROM Opportunity".toList, []⟩]
      ("ignored".toList) (fun _ => [])).usedCalcLLM = false := by decide

/-- C10 amended: for every aggregation-on-previous request, no statement
is generated or executed and the response carries a null statement and
empty row set; the text-generation collaborator is consulted exactly
when the previous turn cached at least one row. -/
theorem C10_aggregation_branch (q : List Char) (hist : List ConvTurn)
    (genRaw : List Char) (exec : List Char → List (Option (List Char)))
    (t : ConvTurn) (rest : List ConvTurn)
    (hagg : isAggregationOnPrevious q hist.length = true)
    (hrev : hist.reverse = t :: rest) :
    (smartQuery q hist genRaw exec).soql = none ∧
    (smartQuery q hist genRaw exec).records = [] ∧
    (smartQuery q hist genRaw exec).executed = [] ∧
    (smartQuery q hist genRaw exec).usedCalcLLM = !t.results.isEmpty := by
  unfold smartQuery
  rw [hagg, hrev]
  cases hres : t.results with
  | nil => simp [hres]
  | cons r rs => simp [hres]

/-- Witness for the amended C10 at a concrete aggregation request whose
previous turn cached one row. -/
theorem C10_aggregation_branch_witness :
    (smartQuery ("sum of those".toList)
      [⟨"q".toList, "SELECT Id FROM Account".toList, [some ("001A".toList)]⟩]
      ("x".toList) (fun _ => [])).soql = none ∧
    (smartQuery ("sum of those".toList)
      [⟨"q".toList, "SELECT Id FROM Account".toList, [some ("001A".toList)]⟩]
      ("x".toList) (fun _ => [])).records = [] ∧
    (smartQuery ("sum of those".toList)
      [⟨"q".toList, "SELECT Id FROM Account".toList, [some ("001A".toList)]⟩]
      ("x".toList) (fun _ => [])).executed = [] ∧
    (smartQuery ("sum of those".toList)
      [⟨"q".toList, "SELECT Id FROM Account".toList, [some ("001A".toList)]⟩]
      ("x".toList) (fun _ => [])).usedCalcLLM
      = !([some ("001A".toList)] : List (Option (List Char))).isEmpty :=
  C10_aggregation_branch _ _ _ _
    ⟨"q".toList, "SELECT Id FROM Account".toList, [some ("001A".toList)]⟩ []
    (by decide) (by decide)

/-- C6 counterexample: a question carrying backward-reference markers
("those") and an explicitly named target entity type (`Account`)
different from the previous turn's (`Contact`) is classified as a
continuation, not a topic switch, because it also contains
relationship/field-addition keywords ("also", "show", "for"). -/
theorem C6_counterexample :
    isReferencingPrevious ("also show the accounts for those".toList) = true ∧
    isDifferentObject (some ("Contact".toList)) (some ("Account".toList)) = true ∧
    classifyContext ("also show the accounts for those".toList)
        (some ("Contact".toList)) (some ("Account".toList)) true
      = ContextKind.continuation := by decide

/-- C6 amended: an explicitly named different target entity type forces a
topic switch only when the question contains neither relationship
keywords (`related`/`from`/`of`/`for`) nor field-addition phrasing;
whenever one of those accompanies a backward reference, continuation
wins. -/
theorem C6_topic_switch_gating :
    (∀ q prev det, isReferencingPrevious q = true →
      (hasRelatedKeywords q = true ∨ isAddingFields q = true) →
      classifyContext q prev det true = ContextKind.continuation) ∧
    (∀ (q p d : List Char), lcs d ≠ lcs p → p ≠ [] → d ≠ [] →
      hasRelatedKeywords q = false → isAddingFields q = false →
      classifyContext q (some p) (some d) true = ContextKind.topicSwitch) := by
  constructor
  · intro q prev det href hrel
    have hnq : isNewQuery q prev det = false := by
      unfold isNewQuery
      rcases hrel with h | h
      · rw [h]; simp
      · rw [h]; simp
    unfold classifyContext
    rw [href, hnq]
    simp
  · intro q p d hne hp hd hrel hadd
    have hnq : isNewQuery q (some p) (some d) = true := by
      unfold isNewQuery isDifferentObject
      rw [hrel, hadd]
      simp [hp, hd, hne]
    unfold classifyContext
    rw [hnq]
    simp

/-- Witness for the amended C6 at concrete questions (one continuation,
one topic switch). -/
theorem C6_topic_switch_gating_witness :
    classifyContext ("also show the accounts for those".toList)
        (some ("Contact".toList)) (some ("Account".toList)) true
      = ContextKind.continuation ∧
    classifyContext ("list every Opportunity record".toList)
        (some ("Contact".toList)) (some ("Opportunity".toList)) true
      = ContextKind.topicSwitch :=
  ⟨C6_topic_switch_gating.1 ("also show the accounts for those".toList)
      (some ("Contact".toList)) (some ("Account".toList)) (by decide)
      (Or.inl (by decide)),
   C6_topic_switch_gating.2 ("list every Opportunity record".toList)
      ("Contact".toList) ("Opportunity".toList) (by decide) (by decide)
      (by decide) (by decide) (by decide)⟩

/-- Every element of a list of naturals is bounded by its `foldr max`. -/
theorem le_foldr_max (l : List Nat) : ∀ x ∈ l, x ≤ l.foldr max 0 := by
  induction l with
  | nil => intro x hx; cases hx
  | cons a t ih =>
    intro x hx
    rcases List.mem_cons.mp hx with h | h
    · subst h; exact le_max_left _ _
    · exact le_trans (ih x h) (le_max_right _ _)

/-- A statement strictly longer than every statement in the history is
fresh with respect to the history. -/
theorem fresh_replicate (h : List HealAttempt) :
    List.replicate (1 + ((h.map fun a => a.statement.length).foldr max 0)) 'x'
      ∉ h.map HealAttempt.statement := by
  intro hmem
  obtain ⟨a, ha, hstmt⟩ := List.mem_map.mp hmem
  have hle : a.statement.length ≤ (h.map fun a => a.statement.length).foldr max 0 :=
    le_foldr_max _ _ (List.mem_map.mpr ⟨a, ha, rfl⟩)
  have hlen := congrArg List.length hstmt
  simp only [List.length_replicate] at hlen
  omega

/-- The core induction behind C1: with a generator that always yields a
plain statement absent from its history, and an executor whose errors are
never fatal-classified, the loop consumes its whole budget and returns
the exhausted outcome with one attempt per budget unit, all statements
distinct. -/
theorem healFrom_exhausted (gen : List HealAttempt → Candidate)
    (exec : List Char → ExecR) (classify : List Char → ErrKind)
    (hgen : ∀ h, ∃ t, gen h = Candidate.stmt t)
    (hexec : ∀ t, ∃ m, exec t = ExecR.err m)
    (hcls : ∀ m, classify m ≠ ErrKind.fatal)
    (hfresh : ∀ h t, gen h = Candidate.stmt t → t ∉ h.map HealAttempt.statement) :
    ∀ (fuel : Nat) (n : Nat) (acc : List HealAttempt),
      (acc.map HealAttempt.statement).Nodup →
      (healFrom gen exec classify n fuel acc).outcome = HealOutcome.exhausted ∧
      (healFrom gen exec classify n fuel acc).attempts.length
        = acc.length + fuel + 1 ∧
      ((healFrom gen exec classify n fuel acc).attempts.map
        HealAttempt.statement).Nodup := by
  intro fuel
  induction fuel with
  | zero =>
    intro n acc hacc
    obtain ⟨t, ht⟩ := hgen acc
    obtain ⟨m, hm⟩ := hexec t
    rw [healFrom]
    simp only [ht, hm]
    cases hc : classify m with
    | fatal => exact absurd hc (hcls m)
    | recoverable =>
      refine ⟨rfl, by simp, ?_⟩
      simp only [List.map_append, List.map_cons, List.map_nil]
      rw [List.nodup_append]
      refine ⟨hacc, List.nodup_singleton t, ?_⟩
      intro x hx hx1
      have hxt := List.mem_singleton.mp hx1
      rw [hxt] at hx
      exact hfresh acc t ht hx
    | unknown =>
      refine ⟨rfl, by simp, ?_⟩
      simp only [List.map_append, List.map_cons, List.map_nil]
      rw [List.nodup_append]
      refine ⟨hacc, List.nodup_singleton t, ?_⟩
      intro x hx hx1
      have hxt := List.mem_singleton.mp hx1
      rw [hxt] at hx
      exact hfresh acc t ht hx
  | succ fuel ih =>
    intro n acc hacc
    obtain ⟨t, ht⟩ := hgen acc
    obtain ⟨m, hm⟩ := hexec t
    rw [healFrom]
    simp only [ht, hm]
    have hacc1 : ((acc ++ [(⟨n, t, some m⟩ : HealAttempt)]).map HealAttempt.statement).Nodup := by
      simp only [List.map_append, List.map_cons, List.map_nil]
      rw [List.nodup_append]
      refine ⟨hacc, List.nodup_singleton t, ?_⟩
      intro x hx hx1
      have hxt := List.mem_singleton.mp hx1
      rw [hxt] at hx
      exact hfresh acc t ht hx
    cases hc : classify m with
    | fatal => exact absurd hc (hcls m)
    | recoverable =>
      have := ih (n + 1) (acc ++ [⟨n, t, some m⟩]) hacc1
      refine ⟨this.1, ?_, this.2.2⟩
      rw [this.2.1]
      simp
      omega
    | unknown =>
      have := ih (n + 1) (acc ++ [⟨n, t, some m⟩]) hacc1
      refine ⟨this.1, ?_, this.2.2⟩
      rw [this.2.1]
      simp
      omega

/-- C1: when every execution fails with a recoverable or unknown error
and the generator honours the anti-repetition contract (each corrected
statement differs from all previously tried ones), the (spec-modelled)
healing loop retries up to `maxAttempts` total attempts and only then
surfaces the exhausted outcome, bundled with the full attempt history:
`attempts.length = maxAttempts` and all attempt statements pairwise
distinct. -/
theorem C1_exhausted_full_history (gen : List HealAttempt → Candidate)
    (exec : List Char → ExecR) (classify : List Char → ErrKind)
    (maxAttempts : Nat) (hmax : 1 ≤ maxAttempts)
    (hgen : ∀ h, ∃ t, gen h = Candidate.stmt t)
    (hexec : ∀ t, ∃ m, exec t = ExecR.err m)
    (hcls : ∀ m, classify m ≠ ErrKind.fatal)
    (hfresh : ∀ h t, gen h = Candidate.stmt t → t ∉ h.map HealAttempt.statement) :
    (generateAndHeal gen exec classify maxAttempts).outcome
      = HealOutcome.exhausted ∧
    (generateAndHeal gen exec classify maxAttempts).attempts.length
      = maxAttempts ∧
    ((generateAndHeal gen exec classify maxAttempts).attempts.map
      HealAttempt.statement).Nodup := by
  unfold generateAndHeal
  have := healFrom_exhausted gen exec classify hgen hexec hcls hfresh
    (maxAttempts - 1) 1 [] (by simp)
  refine ⟨this.1, ?_, this.2.2⟩
  rw [this.2.1]
  simp
  omega

/-- Witness for C1: a generator that always produces a strictly longer
statement than anything in its history, an executor that always fails
with an unknown error, an optimistic classifier, and budget 3. -/
theorem C1_exhausted_full_history_witness :
    (generateAndHeal
      (fun h => Candidate.stmt
        (List.replicate (1 + ((h.map fun a => a.statement.length).foldr max 0)) 'x'))
      (fun _ => ExecR.err ("Unknown error".toList))
      (fun _ => ErrKind.unknown) 3).outcome = HealOutcome.exhausted ∧
    (generateAndHeal
      (fun h => Candidate.stmt
        (List.replicate (1 + ((h.map fun a => a.statement.length).foldr max 0)) 'x'))
      (fun _ => ExecR.err ("Unknown error".toList))
      (fun _ => ErrKind.unknown) 3).attempts.length = 3 ∧
    ((generateAndHeal
      (fun h => Candidate.stmt
        (List.replicate (1 + ((h.map fun a => a.statement.length).foldr max 0)) 'x'))
      (fun _ => ExecR.err ("Unknown error".toList))
      (fun _ => ErrKind.unknown) 3).attempts.map HealAttempt.statement).Nodup :=
  C1_exhausted_full_history _ _ _ 3 (by omega)
    (fun h => ⟨_, rfl⟩) (fun t => ⟨_, rfl⟩)
    (fun m hm => ErrKind.noConfusion hm)
    (fun h t ht => by
      have := fresh_replicate h
      rwa [show t = List.replicate
          (1 + ((h.map fun a => a.statement.length).foldr max 0)) 'x' from
        by injection ht.symm])

/-- The sanitizer acts as plain trimming on candidates free of fences,
of the uppercase `SELECT *` marker, and of placeholder patterns. -/
theorem sanitize_eq_trim (prevIds : List (List Char)) (fb : Option (List Char))
    (x : List Char)
    (h1 : occursCS fence3 x = false)
    (h2 : occursCS selPatCS (trimStr x) = false)
    (h3 : detectPlaceholders (trimStr x) = false) :
    sanitizeStmt prevIds fb x = trimStr x := by
  unfold sanitizeStmt
  rw [strip1_id h1, strip2_id h1, selectStarStep_no_marker h2]
  unfold placeholderStep
  rw [h3]
  simp

/-- C4 counterexample: with identifier `001A` available, sanitizing
`'id'id'` yields `'001A'id'`, and sanitizing again yields
`'001A'001A'` — the quote closing the substituted identifier combines
with the following text into a fresh quoted placeholder, so
`sanitize (sanitize x) ≠ sanitize x`. -/
theorem C4_counterexample :
    sanitizeStmt [("001A".toList)] none
        (quoteWrap ("id".toList) ++ ("id".toList ++ [qc]))
      = quoteWrap ("001A".toList) ++ ("id".toList ++ [qc]) ∧
    sanitizeStmt [("001A".toList)] none
        (quoteWrap ("001A".toList) ++ ("id".toList ++ [qc]))
      = quoteWrap ("001A".toList) ++ ("001A".toList ++ [qc]) ∧
    sanitizeStmt [("001A".toList)] none
        (sanitizeStmt [("001A".toList)] none
          (quoteWrap ("id".toList) ++ ("id".toList ++ [qc])))
      ≠ sanitizeStmt [("001A".toList)] none
          (quoteWrap ("id".toList) ++ ("id".toList ++ [qc])) := by decide

/-- C4 amended: sanitization is idempotent on candidates that contain no
code fence, no `SELECT *` marker after trimming, and no placeholder
pattern after trimming — on such candidates it reduces to whitespace
trimming.  (In general it is not idempotent: see the counterexample.) -/
theorem C4_idempotent_on_clean (prevIds : List (List Char))
    (fb : Option (List Char)) (x : List Char)
    (h1 : occursCS fence3 x = false)
    (h2 : occursCS selPatCS (trimStr x) = false)
    (h3 : detectPlaceholders (trimStr x) = false) :
    sanitizeStmt prevIds fb (sanitizeStmt prevIds fb x)
      = sanitizeStmt prevIds fb x ∧
    sanitizeStmt prevIds fb x = trimStr x := by
  have hx := sanitize_eq_trim prevIds fb x h1 h2 h3
  have h1' : occursCS fence3 (trimStr x) = false := by
    cases hc : occursCS fence3 (trimStr x) with
    | false => rfl
    | true =>
      have := occursCS_mono (trimStr_isInfix x) hc
      rw [h1] at this
      exact Bool.noConfusion this
  have h2' : occursCS selPatCS (trimStr (trimStr x)) = false := by
    rw [trimStr_idem]; exact h2
  have h3' : detectPlaceholders (trimStr (trimStr x)) = false := by
    rw [trimStr_idem]; exact h3
  have hx2 := sanitize_eq_trim prevIds fb (trimStr x) h1' h2' h3'
  exact ⟨by rw [hx, hx2, trimStr_idem], hx⟩

/-- Witness for the amended C4 at a concrete clean candidate. -/
theorem C4_idempotent_on_clean_witness :
    sanitizeStmt [("001A".toList)] none
        (sanitizeStmt [("001A".toList)] none ("  SELECT Id FROM Account  ".toList))
      = sanitizeStmt [("001A".toList)] none ("  SELECT Id FROM Account  ".toList) ∧
    sanitizeStmt [("001A".toList)] none ("  SELECT Id FROM Account  ".toList)
      = trimStr ("  SELECT Id FROM Account  ".toList) :=
  C4_idempotent_on_clean _ _ _ (by decide) (by decide) (by decide)

/-- Lower-casing cannot produce a character outside the lower-case
letter range except by fixing its input. -/
theorem lc_fixed {c d : Char} (hd : ¬(97 ≤ d.toNat ∧ d.toNat ≤ 122))
    (h : lc c = d) : c = d := by
  have ht := toNat_lc c
  rw [h] at ht
  by_cases hc : c.toNat ≥ 65 ∧ c.toNat ≤ 90
  · rw [if_pos hc] at ht
    exact absurd (by omega) hd
  · rw [if_neg hc] at ht
    exact char_toNat_inj ht.symm

/-- Character extraction from a case-insensitive slice match: if the
lower-cased `n`-prefix of `s` equals `p`, every position below `n` is in
bounds and characters correspond through `lc`. -/
theorem lcs_take_char {s p : List Char} {n : Nat}
    (h : lcs (List.take n s) = p) (hn : p.length = n) {k : Nat} (hk : k < n) :
    k < s.length ∧ lc (s.getD k ' ') = p.getD k ' ' := by
  have hlen : (List.take n s).length = n := by
    have := congrArg List.length h
    simp only [lcs, List.length_map] at this
    omega
  have hsn : n ≤ s.length := by
    rw [List.length_take] at hlen
    omega
  refine ⟨by omega, ?_⟩
  have hk1 : k < (List.take n s).length := by omega
  have hk2 : k < (List.map lc (List.take n s)).length := by simpa using hk1
  have e1 : p.getD k ' ' = (lcs (List.take n s)).getD k ' ' := by rw [h]
  rw [lcs, List.getD_eq_getElem (List.map lc (List.take n s)) ' ' hk2,
      List.getElem_map, List.getElem_take] at e1
  rw [List.getD_eq_getElem s ' ' (by omega)]
  exact e1.symm

/-- Positions inside a dropped prefix: `getD` after `drop` shifts the
index. -/
theorem getD_drop (l : List Char) (i k : Nat) (d : Char) (h : i + k < l.length) :
    (List.drop i l).getD k d = l.getD (i + k) d := by
  rw [List.getD_eq_getElem _ _ (by rw [List.length_drop]; omega),
      List.getD_eq_getElem _ _ h]
  exact List.getElem_drop l

/-- C7 counterexample: `select * from Account` requests all fields (in
the specification's sense) but escapes the unrestricted-selection
rewrite, whose guard checks only for the uppercase `SELECT *`; the
output still requests all fields. -/
theorem C7_counterexample :
    requestsAllFieldsSpec ("select * from Account".toList) = true ∧
    selectStarStep ("select * from Account".toList)
      = ("select * from Account".toList) ∧
    requestsAllFieldsSpec (selectStarStep ("select * from Account".toList))
      = true := by decide

/-- C7 amended: the unrestricted-selection rewrite fires only on
statements containing the case-sensitive `SELECT *` marker; statements
without the marker (including lowercase `select *`) are unchanged, and
when the marker occurs each case-insensitive occurrence is replaced by
`SELECT Id, Name`. -/
theorem C7_rewrite_case_sensitive :
    (∀ s, occursCS selPatCS s = false → selectStarStep s = s) ∧
    (∀ a b : List Char, a.all (fun c => c ≠ '*') = true →
      occursCI selPatCI b = false →
      selectStarStep (a ++ selPatCS ++ b) = a ++ selRepl ++ b) := by
  constructor
  · exact fun s h => selectStarStep_no_marker h
  · intro a b ha hb
    have hocc : occursCS selPatCS (a ++ selPatCS ++ b) = true := by
      rw [occursCS_iff_isInfix]
      exact ⟨a, b, rfl⟩
    unfold selectStarStep
    rw [hocc]
    simp only [if_true]
    unfold selStarScan
    rw [List.append_assoc]
    rw [scanRepl_passthrough _ a (selPatCS ++ b) ?hpass]
    case hpass =>
      intro i hi
      dsimp only
      rw [if_neg]
      intro hcond
      have hlen : (selPatCI).length = 8 := by decide
      have hchar := lcs_take_char hcond hlen (k := 7) (by omega)
      have hb7 : i + 7 < (a ++ (selPatCS ++ b)).length := by
        have := hchar.1
        rw [List.length_drop] at this
        simp only [List.length_append] at this ⊢
        omega
      rw [getD_drop _ i 7 ' ' hb7] at hchar
      have hstar : lc ((a ++ (selPatCS ++ b)).getD (i + 7) ' ') = '*' := by
        have := hchar.2
        rwa [show (selPatCI).getD 7 ' ' = '*' from by decide] at this
      by_cases hcase : i + 7 < a.length
      · rw [List.getD_append _ _ _ _ hcase] at hstar
        have hmem : a.getD (i + 7) ' ' ∈ a := by
          rw [List.getD_eq_getElem a ' ' hcase]
          exact List.getElem_mem hcase
        have hall := List.all_eq_true.mp ha _ hmem
        have heq : a.getD (i + 7) ' ' = '*' :=
          lc_fixed (by decide) hstar
        simp only [List.getD] at heq
        simp only [decide_eq_true_eq] at hall
        exact hall heq
      · have hge : a.length ≤ i + 7 := by omega
        rw [List.getD_append_right _ _ _ _ hge] at hstar
        have hj : i + 7 - a.length < 7 := by omega
        have hjlt : i + 7 - a.length < selPatCS.length := by
          rw [show selPatCS.length = 8 from by decide]
          omega
        rw [List.getD_append _ _ _ _ hjlt] at hstar
        set j := i + 7 - a.length with hjdef
        interval_cases j <;> revert hstar <;> decide
    have hcons : selPatCS ++ b = 'S' :: ("ELECT *".toList ++ b) := rfl
    rw [hcons, scanRepl_match _ 'S' ("ELECT *".toList ++ b) 8 selRepl ?hm]
    case hm =>
      have hcond : lcs (List.take 8 ('S' :: ("ELECT *".toList ++ b))) = selPatCI := by
        rw [show ('S' :: ("ELECT *".toList ++ b)) = selPatCS ++ b from rfl]
        rw [List.take_left' (by decide : selPatCS.length = 8)]
        decide
      rw [if_pos hcond]
    rw [show (8 - 1) = 7 from rfl,
        List.drop_left' (by decide : ("ELECT *".toList).length = 7)]
    rw [scanRepl_id _ b ?hid, ← List.append_assoc]
    case hid =>
      intro i hi
      rw [if_neg]
      intro hcond
      refine occursCI_false_no_take i hb ?_
      rw [show lcs selPatCI = selPatCI from by decide]
      rw [show selPatCI.length = 8 from by decide]
      exact hcond

/-- Witness for the amended C7: both branches at concrete statements. -/
theorem C7_rewrite_case_sensitive_witness :
    selectStarStep ("select * from Account".toList)
      = ("select * from Account".toList) ∧
    selectStarStep (("".toList) ++ selPatCS ++ (" FROM Account".toList))
      = ("".toList) ++ selRepl ++ (" FROM Account".toList) :=
  ⟨C7_rewrite_case_sensitive.1 ("select * from Account".toList) (by decide),
   C7_rewrite_case_sensitive.2 ("".toList) (" FROM Account".toList)
     (by decide) (by decide)⟩

/-- An alphanumeric string never lower-cases onto a pattern whose first
character is not alphanumeric. -/
theorem lcs_alnum_ne_pat {w : List Char} (hw : w.all isAlnum = true)
    (hne : w ≠ []) {v : List Char} (hv0 : isAlnum (v.getD 0 ' ') = false) :
    lcs w ≠ v := by
  intro he
  cases w with
  | nil => exact hne rfl
  | cons c w' =>
    have hc : isAlnum c = true := List.all_eq_true.mp hw c (by simp)
    have hlc : lc c = v.getD 0 ' ' := by
      rw [← he]
      rfl
    exact lc_alnum_ne hc hv0 hlc

/-- Alphanumeric characters are never the quote character. -/
theorem alnum_ne_qc {c : Char} (h : isAlnum c = true) : c ≠ qc := by
  intro he
  rw [he] at h
  have : isAlnum qc = false := by decide
  rw [this] at h
  exact Bool.noConfusion h

/-- `qpLenYour` fails when the head character does not lower-case to
`y`. -/
theorem qpLenYour_none_head {c : Char} {rest : List Char} (hne : lc c ≠ 'y') :
    qpLenYour (c :: rest) = none := by
  unfold qpLenYour
  rw [if_neg]
  intro hcond
  have h0 := lcs_take_char hcond (by decide) (k := 0) (by omega)
  have h2 := h0.2
  simp only [List.getD_cons_zero] at h2
  exact hne (h2.trans (by decide))

/-- `qpLenReplaceWith` fails when the head character does not lower-case
to `r`. -/
theorem qpLenRW_none_head {c : Char} {rest : List Char} (hne : lc c ≠ 'r') :
    qpLenReplaceWith (c :: rest) = none := by
  unfold qpLenReplaceWith
  rw [if_neg]
  intro hcond
  have h0 := lcs_take_char hcond (by decide) (k := 0) (by omega)
  have h2 := h0.2
  simp only [List.getD_cons_zero] at h2
  exact hne (h2.trans (by decide))

/-- `qpLenLit` fails when the head character does not lower-case to the
literal's first character. -/
theorem qpLenLit_none_head {w : List Char} {c : Char} {rest : List Char}
    (hw : w ≠ []) (hne : lc c ≠ w.getD 0 ' ') :
    qpLenLit w (c :: rest) = none := by
  unfold qpLenLit
  rw [if_neg]
  intro hcond
  have hlen : (w ++ [qc]).length = w.length + 1 := by simp
  have h0 := lcs_take_char hcond hlen (k := 0) (by omega)
  have hw0 : (w ++ [qc]).getD 0 ' ' = w.getD 0 ' ' := by
    cases w with
    | nil => exact absurd rfl hw
    | cons a t => rfl
  rw [hw0] at h0
  have h2 := h0.2
  simp only [List.getD_cons_zero] at h2
  exact hne h2

/-- `qpLenYour` fails on a quoted alphanumeric word: the `_` required at
offset 4 of `your_` can be neither an alphanumeric character nor the
closing quote. -/
theorem qpLenYour_none_alnum {w rest : List Char} (hw : w.all isAlnum = true)
    (hne : w ≠ []) : qpLenYour (w ++ qc :: rest) = none := by
  unfold qpLenYour
  rw [if_neg]
  intro hcond
  by_cases hlen : 4 < w.length
  · have h4 := lcs_take_char hcond (by decide) (k := 4) (by omega)
    have hgd : (w ++ qc :: rest).getD 4 ' ' = w.getD 4 ' ' :=
      List.getD_append _ _ _ _ hlen
    have hmem : w.getD 4 ' ' ∈ w := by
      rw [List.getD_eq_getElem w ' ' hlen]
      exact List.getElem_mem hlen
    have halnum := List.all_eq_true.mp hw _ hmem
    have h42 := h4.2
    rw [hgd, show ("your_".toList).getD 4 ' ' = '_' from by decide] at h42
    exact lc_alnum_ne halnum (by decide) h42
  · have hwlen : 0 < w.length := List.length_pos.mpr hne
    have hk := lcs_take_char hcond (by decide) (k := w.length) (by omega)
    have hgd : (w ++ qc :: rest).getD w.length ' ' = qc := by
      rw [List.getD_append_right _ _ _ _ (le_refl w.length)]
      simp
    have hk2 := hk.2
    rw [hgd, show lc qc = qc from by decide] at hk2
    obtain ⟨hm1, hm2⟩ : 1 ≤ w.length ∧ w.length ≤ 4 := ⟨hwlen, by omega⟩
    set m := w.length with hm
    interval_cases m <;> revert hk2 <;> decide

/-- `qpLenReplaceWith` fails on a quoted alphanumeric word: the `_`
required at offset 7 of `replace_with` can be neither alphanumeric nor
the closing quote. -/
theorem qpLenRW_none_alnum {w rest : List Char} (hw : w.all isAlnum = true)
    (hne : w ≠ []) : qpLenReplaceWith (w ++ qc :: rest) = none := by
  unfold qpLenReplaceWith
  rw [if_neg]
  intro hcond
  by_cases hlen : 7 < w.length
  · have h7 := lcs_take_char hcond (by decide) (k := 7) (by omega)
    have hgd : (w ++ qc :: rest).getD 7 ' ' = w.getD 7 ' ' :=
      List.getD_append _ _ _ _ hlen
    have hmem : w.getD 7 ' ' ∈ w := by
      rw [List.getD_eq_getElem w ' ' hlen]
      exact List.getElem_mem hlen
    have halnum := List.all_eq_true.mp hw _ hmem
    have h72 := h7.2
    rw [hgd, show patReplaceWith.getD 7 ' ' = '_' from by decide] at h72
    exact lc_alnum_ne halnum (by decide) h72
  · have hwlen : 0 < w.length := List.length_pos.mpr hne
    have hk := lcs_take_char hcond (by decide) (k := w.length) (by omega)
    have hgd : (w ++ qc :: rest).getD w.length ' ' = qc := by
      rw [List.getD_append_right _ _ _ _ (le_refl w.length)]
      simp
    have hk2 := hk.2
    rw [hgd, show lc qc = qc from by decide] at hk2
    obtain ⟨hm1, hm2⟩ : 1 ≤ w.length ∧ w.length ≤ 7 := ⟨hwlen, by omega⟩
    set m := w.length with hm
    interval_cases m <;> revert hk2 <;> decide

/-- `qpLenLit v` fails on a quoted alphanumeric word that does not
lower-case onto `v` (for quote-free `v`). -/
theorem qpLenLit_none_alnum {v w rest : List Char} (hqv : qc ∉ v)
    (hw : w.all isAlnum = true) (hnev : lcs w ≠ v) :
    qpLenLit v (w ++ qc :: rest) = none := by
  unfold qpLenLit
  rw [if_neg]
  intro hcond
  have hlen : (v ++ [qc]).length = v.length + 1 := by simp
  rcases Nat.lt_trichotomy w.length v.length with hlt | heq | hgt
  · have hk := lcs_take_char hcond hlen (k := w.length) (by omega)
    have hgd : (w ++ qc :: rest).getD w.length ' ' = qc := by
      rw [List.getD_append_right _ _ _ _ (le_refl w.length)]
      simp
    have hk2 := hk.2
    rw [hgd, show lc qc = qc from by decide,
        List.getD_append _ _ _ _ hlt] at hk2
    have : qc ∈ v := by
      rw [hk2, List.getD_eq_getElem v ' ' hlt]
      exact List.getElem_mem hlt
    exact hqv this
  · apply hnev
    apply List.ext_getElem
    · simp [lcs, heq]
    · intro k h1 h2
      have hkv : k < v.length := h2
      have hkw : k < w.length := by
        simp only [lcs, List.length_map] at h1
        exact h1
      have hk := lcs_take_char hcond hlen (k := k) (by omega)
      have hk2 := hk.2
      rw [List.getD_append _ _ _ _ hkw, List.getD_append _ _ _ _ hkv] at hk2
      rw [List.getD_eq_getElem w ' ' hkw, List.getD_eq_getElem v ' ' hkv] at hk2
      simpa [lcs] using hk2
  · have hk := lcs_take_char hcond hlen (k := v.length) (by omega)
    have hgdL : (w ++ qc :: rest).getD v.length ' ' = w.getD v.length ' ' :=
      List.getD_append _ _ _ _ hgt
    have hgdR : (v ++ [qc]).getD v.length ' ' = qc := by
      rw [List.getD_append_right _ _ _ _ (le_refl v.length)]
      simp
    have hmem : w.getD v.length ' ' ∈ w := by
      rw [List.getD_eq_getElem w ' ' hgt]
      exact List.getElem_mem hgt
    have halnum := List.all_eq_true.mp hw _ hmem
    have hk2 := hk.2
    rw [hgdL, hgdR] at hk2
    exact lc_alnum_ne halnum (by decide) hk2

/-- No quoted-placeholder alternative matches at the opening quote of a
"safe" alphanumeric word (one that is not itself a catalogued
placeholder). -/
theorem qpLen_none_safe {w rest : List Char} (hw : w.all isAlnum = true)
    (hne : w ≠ [])
    (h1 : lcs w ≠ "id".toList) (h2 : lcs w ≠ "xxx".toList)
    (h3 : lcs w ≠ "003xxx".toList) (h4 : lcs w ≠ "003yyy".toList) :
    qpLen (qc :: (w ++ qc :: rest)) = none := by
  unfold qpLen
  dsimp only
  rw [if_pos rfl]
  rw [qpLenYour_none_alnum hw hne, qpLenRW_none_alnum hw hne,
      qpLenLit_none_alnum (by decide) hw
        (lcs_alnum_ne_pat hw hne (by decide)),
      qpLenLit_none_alnum (by decide) hw h1,
      qpLenLit_none_alnum (by decide) hw h2,
      qpLenLit_none_alnum (by decide) hw h3,
      qpLenLit_none_alnum (by decide) hw h4]
  rfl

/-- No quoted-placeholder alternative matches at a quote followed by a
character that starts none of the alternatives. -/
theorem qpLen_none_after_quote {c : Char} {rest : List Char}
    (h1 : lc c ≠ 'y') (h2 : lc c ≠ 'r') (h3 : lc c ≠ '[') (h4 : lc c ≠ 'i')
    (h5 : lc c ≠ 'x') (h6 : lc c ≠ '0') :
    qpLen (qc :: c :: rest) = none := by
  unfold qpLen
  dsimp only
  rw [if_pos rfl]
  rw [qpLenYour_none_head h1, qpLenRW_none_head h2,
      qpLenLit_none_head (by decide) (by simpa using h3),
      qpLenLit_none_head (by decide) (by simpa using h4),
      qpLenLit_none_head (by decide) (by simpa using h5),
      qpLenLit_none_head (by decide) (by simpa using h6),
      qpLenLit_none_head (by decide) (by simpa using h6)]
  rfl

/-- The alternation matches the literal `'id'` (length 4) at its head,
for any following text. -/
theorem qpLen_match_qid (b : List Char) : qpLen (patQId ++ b) = some 4 := by
  show qpLen (qc :: ('i' :: 'd' :: qc :: b)) = some 4
  unfold qpLen
  dsimp only
  rw [if_pos rfl]
  rw [qpLenYour_none_head (by decide), qpLenRW_none_head (by decide),
      qpLenLit_none_head (w := "[id]".toList) (by decide) (by decide)]
  have hid : qpLenLit ("id".toList) ('i' :: 'd' :: qc :: b) = some 4 := by
    unfold qpLenLit
    rw [if_pos]
    · rfl
    · rw [show List.take (("id".toList).length + 1) ('i' :: 'd' :: qc :: b)
          = ['i', 'd', qc] from by simp]
      decide
  rw [hid]
  rfl

/-- The quoted-placeholder replacement copies a quote-free region
verbatim. -/
theorem quotedRepl_pass (idF u v : List Char) (hq : ∀ c ∈ u, c ≠ qc) :
    quotedRepl idF (u ++ v) = u ++ quotedRepl idF v := by
  unfold quotedRepl
  apply scanRepl_passthrough
  intro i hi
  have hlt : i < (u ++ v).length := by simp; omega
  rw [List.drop_eq_getElem_cons hlt]
  have hu : (u ++ v)[i] = u[i] := (List.getElem_append_left hi)
  have hcne : (u ++ v)[i] ≠ qc := by
    rw [hu]
    exact hq _ (List.getElem_mem hi)
  try dsimp only
  rw [show qpLen ((u ++ v)[i] :: List.drop (i + 1) (u ++ v)) = none from by
    unfold qpLen
    try dsimp only
    rw [if_neg hcne]]

/-- The quoted-placeholder replacement fixes a quote-free string. -/
theorem quotedRepl_id (idF v : List Char) (hq : ∀ c ∈ v, c ≠ qc) :
    quotedRepl idF v = v := by
  have := quotedRepl_pass idF v [] hq
  simpa [show quotedRepl idF [] = [] from rfl] using this

/-- The quoted-placeholder replacement steps over a safe quoted
alphanumeric word, resuming at the closing quote. -/
theorem quotedRepl_skip_quoted (idF w rest : List Char)
    (hw : w.all isAlnum = true) (hne : w ≠ [])
    (h1 : lcs w ≠ "id".toList) (h2 : lcs w ≠ "xxx".toList)
    (h3 : lcs w ≠ "003xxx".toList) (h4 : lcs w ≠ "003yyy".toList) :
    quotedRepl idF (qc :: (w ++ qc :: rest))
      = qc :: (w ++ quotedRepl idF (qc :: rest)) := by
  unfold quotedRepl
  rw [scanRepl_nomatch _ qc (w ++ qc :: rest) (by
    try dsimp only
    rw [qpLen_none_safe hw hne h1 h2 h3 h4])]
  congr 1
  have hqw : ∀ c ∈ w, c ≠ qc := fun c hc =>
    alnum_ne_qc (List.all_eq_true.mp hw c hc)
  exact scanRepl_passthrough _ w (qc :: rest) (by
    intro i hi
    have hlt : i < (w ++ qc :: rest).length := by simp; omega
    rw [List.drop_eq_getElem_cons hlt]
    have hu : (w ++ qc :: rest)[i] = w[i] := (List.getElem_append_left hi)
    have hcne : (w ++ qc :: rest)[i] ≠ qc := by
      rw [hu]
      exact hqw _ (List.getElem_mem hi)
    try dsimp only
    rw [show qpLen ((w ++ qc :: rest)[i] :: List.drop (i + 1) (w ++ qc :: rest))
        = none from by
      unfold qpLen
      try dsimp only
      rw [if_neg hcne]])

/-- The first-match `WHERE Id IN` rewrite fixes any statement not
containing `where` (case-insensitively). -/
theorem inRewrite_id_no_where (ids : List (List Char)) (s : List Char)
    (hw : occursCI ("where".toList) s = false) : inRewrite ids s = s := by
  unfold inRewrite
  apply replFirst_id
  intro k _
  have hnone : inLen (List.drop k s) = none := by
    unfold inLen
    rw [if_neg]
    intro hcond
    refine occursCI_false_no_take k hw ?_
    rw [show lcs ("where".toList) = "where".toList from by decide,
        show ("where".toList).length = 5 from by decide]
    exact hcond
  try dsimp only
  rw [hnone]

/-- Unfolding a quote-wrapped word followed by more text. -/
theorem quoteWrap_append (w X : List Char) :
    quoteWrap w ++ X = qc :: (w ++ qc :: X) := by
  simp [quoteWrap]

/-- C5 counterexample: with identifiers available (`001A`), a statement
containing the catalogued bare placeholder `your_user_id` (matched by
`/your_\w+_id/i`) is detected but left completely unchanged — only
quoted placeholder tokens are ever substituted. -/
theorem C5_counterexample :
    detectYourId ("WHERE OwnerId = your_user_id".toList) = true ∧
    placeholderStep [("001A".toList)] none
        ("WHERE OwnerId = your_user_id".toList)
      = ("WHERE OwnerId = your_user_id".toList) := by decide

/-- C5 amended: placeholder substitution acts only on quoted placeholder
tokens.  (1) With record identifiers available, a quoted `'id'`
placeholder is replaced by the first identifier (quote-free context,
no `WHERE ... IN` clause present); (2) with no identifier available the
statement is unchanged; (3) with identifiers `i, j` available, the
`WHERE Id IN ('xxx')` list is replaced by the full identifier list. -/
theorem C5_substitution_quoted_only :
    (∀ (i0 : List Char) (ids : List (List Char)) (fb : Option (List Char))
        (a b : List Char),
      (∀ c ∈ a, c ≠ qc) → (∀ c ∈ b, c ≠ qc) →
      occursCI ("where".toList) (a ++ patQId ++ b) = false →
      placeholderStep (i0 :: ids) fb (a ++ patQId ++ b)
        = a ++ quoteWrap i0 ++ b) ∧
    (∀ s, placeholderStep [] none s = s) ∧
    (∀ (i j : List Char) (fb : Option (List Char)),
      i.all isAlnum = true → j.all isAlnum = true → i ≠ [] → j ≠ [] →
      lcs i ≠ "id".toList → lcs i ≠ "xxx".toList →
      lcs i ≠ "003xxx".toList → lcs i ≠ "003yyy".toList →
      lcs j ≠ "id".toList → lcs j ≠ "xxx".toList →
      lcs j ≠ "003xxx".toList → lcs j ≠ "003yyy".toList →
      placeholderStep [i, j] fb
          ("SELECT Id FROM Contact WHERE Id IN (".toList ++ patQXxx ++ [')'])
        = ("SELECT Id FROM Contact WHERE Id IN (".toList)
            ++ (quoteWrap i ++ ((", ".toList) ++ (quoteWrap j ++ [')'])))) := by
  refine ⟨?part1, ?part2, ?part3⟩
  case part1 =>
    intro i0 ids fb a b ha hb hw
    have hocc : occursCI patQId (a ++ patQId ++ b) = true := by
      apply occursCI_of_take a.length
      rw [List.append_assoc, List.drop_left, List.take_left' rfl]
    have hdet : detectPlaceholders (a ++ patQId ++ b) = true := by
      unfold detectPlaceholders
      rw [hocc]
      simp
    unfold placeholderStep
    rw [hdet]
    simp only [if_true]
    rw [inRewrite_id_no_where _ _ hw]
    rw [List.append_assoc, quotedRepl_pass i0 a (patQId ++ b) ha]
    have hmatch : quotedRepl i0 (patQId ++ b)
        = quoteWrap i0 ++ quotedRepl i0 b := by
      unfold quotedRepl
      rw [show patQId ++ b = qc :: ('i' :: 'd' :: qc :: b) from rfl]
      rw [scanRepl_match _ qc ('i' :: 'd' :: qc :: b) 4 (quoteWrap i0) ?step]
      case step =>
        try dsimp only
        rw [show qpLen (qc :: ('i' :: 'd' :: qc :: b)) = some 4 from
          qpLen_match_qid b]
      rw [show List.drop (4 - 1) ('i' :: 'd' :: qc :: b) = b from rfl]
    rw [hmatch, quotedRepl_id i0 b hb, ← List.append_assoc]
  case part2 =>
    intro s
    unfold placeholderStep
    split
    · rfl
    · rfl
  case part3 =>
    intro i j fb hi hj hine hjne hi1 hi2 hi3 hi4 hj1 hj2 hj3 hj4
    have hdet : detectPlaceholders
        ("SELECT Id FROM Contact WHERE Id IN (".toList ++ patQXxx ++ [')'])
        = true := by decide
    unfold placeholderStep
    rw [hdet]
    simp only [if_true]
    have hin : inRewrite [i, j]
        ("SELECT Id FROM Contact WHERE Id IN (".toList ++ patQXxx ++ [')'])
        = ("SELECT Id FROM Contact ".toList) ++ inReplacement [i, j] := by
      unfold inRewrite
      rw [show ("SELECT Id FROM Contact WHERE Id IN (".toList ++ patQXxx ++ [')'])
          = ("SELECT Id FROM Contact ".toList)
            ++ ("WHERE Id IN (".toList ++ patQXxx ++ [')']) from by decide]
      rw [replFirst_passthrough _ _ _ ?hpre]
      case hpre =>
        intro k hk
        have hall : ∀ k' < 23,
            inLen (List.drop k' (("SELECT Id FROM Contact ".toList)
              ++ ("WHERE Id IN (".toList ++ patQXxx ++ [')']))) = none := by
          decide
        have hkb : k < 23 := by simpa using hk
        try dsimp only
        rw [hall k hkb]
      congr 1
      rw [show ("WHERE Id IN (".toList ++ patQXxx ++ [')'])
          = 'W' :: ("HERE Id IN (".toList ++ patQXxx ++ [')']) from rfl]
      have hlen : inLen ('W' :: ("HERE Id IN (".toList ++ patQXxx ++ [')']))
          = some 19 := by decide
      simp only [replFirst, hlen]
      rw [show List.drop (19 - 1) ("HERE Id IN (".toList ++ patQXxx ++ [')'])
          = ([] : List Char) from by decide]
      simp
    rw [hin]
    have hjoin : inReplacement [i, j]
        = ("WHERE Id IN (".toList)
            ++ (quoteWrap i ++ ((", ".toList) ++ (quoteWrap j ++ [')']))) := by
      unfold inReplacement joinIds
      simp [List.intercalate, List.intersperse, List.append_assoc]
    rw [hjoin, ← List.append_assoc]
    rw [show ("SELECT Id FROM Contact ".toList) ++ ("WHERE Id IN (".toList)
        = ("SELECT Id FROM Contact WHERE Id IN (".toList) from by decide]
    rw [quotedRepl_pass i ("SELECT Id FROM Contact WHERE Id IN (".toList) _
        (by decide)]
    congr 1
    have e1 : quotedRepl i (qc :: ((", ".toList) ++ (quoteWrap j ++ [')'])))
        = qc :: quotedRepl i ((", ".toList) ++ (quoteWrap j ++ [')'])) := by
      unfold quotedRepl
      rw [scanRepl_nomatch _ qc _ ?hn1]
      case hn1 =>
        try dsimp only
        rw [show ((", ".toList) ++ (quoteWrap j ++ [')']))
            = ',' :: (' ' :: (quoteWrap j ++ [')'])) from rfl]
        rw [qpLen_none_after_quote (by decide) (by decide) (by decide)
            (by decide) (by decide) (by decide)]
    have e2 : quotedRepl i ((", ".toList) ++ (quoteWrap j ++ [')']))
        = (", ".toList) ++ quotedRepl i (quoteWrap j ++ [')']) :=
      quotedRepl_pass i (", ".toList) _ (by decide)
    have e3 : quotedRepl i (quoteWrap j ++ [')'])
        = qc :: (j ++ quotedRepl i (qc :: [')'])) := by
      rw [quoteWrap_append]
      exact quotedRepl_skip_quoted i j [')'] hj hjne hj1 hj2 hj3 hj4
    have e4 : quotedRepl i (qc :: [')']) = qc :: [')'] := by
      unfold quotedRepl
      rw [scanRepl_nomatch _ qc [')'] ?hn2]
      case hn2 =>
        try dsimp only
        rw [qpLen_none_after_quote (by decide) (by decide) (by decide)
            (by decide) (by decide) (by decide)]
      rw [show scanRepl (fun s => match qpLen s with
          | some n => some (n, quoteWrap i)
          | none => none) [')'] = [')'] from rfl]
    rw [quoteWrap_append,
        quotedRepl_skip_quoted i i ((", ".toList) ++ (quoteWrap j ++ [')']))
          hi hine hi1 hi2 hi3 hi4,
        e1, e2, e3, e4]
    simp [quoteWrap, List.append_assoc]

/-- Witness for C5: the three parts instantiated at concrete inputs. -/
theorem C5_substitution_quoted_only_witness :
    placeholderStep [("003AAA".toList)] none
        (("Id = ".toList) ++ patQId ++ [])
      = ("Id = ".toList) ++ quoteWrap ("003AAA".toList) ++ [] ∧
    placeholderStep [] none ("SELECT Id FROM Account".toList)
      = ("SELECT Id FROM Account".toList) ∧
    placeholderStep [("AAA111".toList), ("BBB222".toList)] none
        ("SELECT Id FROM Contact WHERE Id IN (".toList ++ patQXxx ++ [')'])
      = ("SELECT Id FROM Contact WHERE Id IN (".toList)
          ++ (quoteWrap ("AAA111".toList)
              ++ ((", ".toList) ++ (quoteWrap ("BBB222".toList) ++ [')']))) :=
  ⟨C5_substitution_quoted_only.1 ("003AAA".toList) [] none ("Id = ".toList) []
      (by decide) (by decide) (by decide),
   C5_substitution_quoted_only.2.1 ("SELECT Id FROM Account".toList),
   C5_substitution_quoted_only.2.2 ("AAA111".toList) ("BBB222".toList) none
      (by decide) (by decide) (by decide) (by decide) (by decide) (by decide)
      (by decide) (by decide) (by decide) (by decide) (by decide) (by decide)⟩

/-- An alphanumeric character is a word character. -/
theorem wordChar_of_alnum {c : Char} (h : isAlnum c = true) :
    isWordChar c = true := by
  simp only [isAlnum, decide_eq_true_eq] at h
  simp only [isWordChar, decide_eq_true_eq]
  tauto

/-- An identifier-shaped token inserted between non-word contexts is
matched at its own position. -/
theorem idMatchAt_insert (a tok b : List Char) (n : Nat)
    (hlen : tok.length = n)
    (hal : tok.all isAlnum = true)
    (ha : a = [] ∨ isWordChar (a.getD (a.length - 1) ' ') = false)
    (hb : b = [] ∨ isWordChar (b.getD 0 ' ') = false) :
    idMatchAt (a ++ tok ++ b) a.length n = true := by
  have htake : List.take n (List.drop a.length (a ++ tok ++ b)) = tok := by
    rw [List.append_assoc, List.drop_left, List.take_left' hlen]
  have hbb : boundaryBeforeB (a ++ tok ++ b) a.length = true := by
    unfold boundaryBeforeB
    by_cases hnil : a = []
    · subst hnil
      simp
    · rcases ha with rfl | h
      · simp
      · have hlt : a.length - 1 < a.length :=
          Nat.sub_lt (List.length_pos.mpr hnil) one_pos
        rw [List.append_assoc,
            List.getD_append a (tok ++ b) ' ' (a.length - 1) hlt, h]
        simp
  have hba : boundaryAfterB (a ++ tok ++ b) (a.length + n) = true := by
    unfold boundaryAfterB
    rcases hb with rfl | h
    · have : a.length + n = (a ++ tok ++ []).length := by
        simp [List.length_append, hlen]
      simp [this]
    · have hge : (a ++ tok).length ≤ a.length + n := by
        simp [List.length_append, hlen]
      rw [List.getD_append_right (a ++ tok) b ' ' (a.length + n) hge,
          show a.length + n - (a ++ tok).length = 0 from by
            simp [List.length_append, hlen], h]
      simp
  unfold idMatchAt
  rw [htake, hbb, hba, hlen, hal]
  simp

/-- At the start of an 18-character alphanumeric token the 15-character
alternative fails: the character after the candidate is a word
character, so the trailing boundary assertion is violated. -/
theorem idMatchAt_15_false_of_18 (a tok b : List Char)
    (hlen : tok.length = 18) (hal : tok.all isAlnum = true) :
    idMatchAt (a ++ tok ++ b) a.length 15 = false := by
  have hgd : (a ++ tok ++ b).getD (a.length + 15) ' ' = tok.getD 15 ' ' := by
    rw [List.append_assoc,
        List.getD_append_right a (tok ++ b) ' ' (a.length + 15) (by omega),
        show a.length + 15 - a.length = 15 from by omega,
        List.getD_append tok b ' ' 15 (by omega)]
  have h15 : 15 < tok.length := by omega
  have haln : isAlnum (tok.getD 15 ' ') = true := by
    rw [List.getD_eq_getElem tok ' ' h15]
    exact List.all_eq_true.mp hal _ (List.getElem_mem h15)
  have hba : boundaryAfterB (a ++ tok ++ b) (a.length + 15) = false := by
    unfold boundaryAfterB
    rw [hgd, wordChar_of_alnum haln]
    have hne : (decide (a.length + 15 = (a ++ tok ++ b).length)) = false := by
      simp [List.length_append]
      omega
    rw [hne]
    simp
  unfold idMatchAt
  rw [hba]
  simp

/-- C8 counterexample: `ABCDEFGH1234567` is a 15-character alphanumeric
token of the question, but the extraction returns nothing, because the
adjacent underscore is a word character and suppresses the leading
word-boundary assertion. -/
theorem C8_counterexample :
    ("ABCDEFGH1234567".toList) ∈
        alnumTokens ("show x_ABCDEFGH1234567 now".toList) ∧
    ("ABCDEFGH1234567".toList).length = 15 ∧
    extractIds ("show x_ABCDEFGH1234567 now".toList) = [] := by decide

/-- C8 amended: (1) a 15- or 18-character alphanumeric token that is
delimited by non-word characters (or the ends of the text) is extracted
verbatim; (2) every extracted identifier is an alphanumeric token of
length exactly 15 or 18.  Tokens delimited by an underscore need not be
extracted (see the counterexample). -/
theorem C8_boundary_extraction :
    (∀ (a tok b : List Char),
      tok.all isAlnum = true →
      (tok.length = 15 ∨ tok.length = 18) →
      (a = [] ∨ isWordChar (a.getD (a.length - 1) ' ') = false) →
      (b = [] ∨ isWordChar (b.getD 0 ' ') = false) →
      tok ∈ extractIds (a ++ tok ++ b)) ∧
    (∀ (s t : List Char), t ∈ extractIds s →
      (t.length = 15 ∨ t.length = 18) ∧ t.all isAlnum = true) := by
  constructor
  · intro a tok b hal hlen ha hb
    have hmem : a.length ∈ List.range ((a ++ tok ++ b).length + 1) := by
      rw [List.mem_range]
      simp [List.length_append]
      omega
    have htake : ∀ n, tok.length = n →
        List.take n (List.drop a.length (a ++ tok ++ b)) = tok := by
      intro n hn
      rw [List.append_assoc, List.drop_left, List.take_left' hn]
    rw [extractIds, List.mem_filterMap]
    refine ⟨a.length, hmem, ?_⟩
    rcases hlen with h15 | h18
    · rw [if_pos (idMatchAt_insert a tok b 15 h15 hal ha hb), htake 15 h15]
    · have hfalse : idMatchAt (a ++ tok ++ b) a.length 15 = true → False := by
        rw [idMatchAt_15_false_of_18 a tok b h18 hal]
        exact fun h => Bool.noConfusion h
      rw [if_neg hfalse,
          if_pos (idMatchAt_insert a tok b 18 h18 hal ha hb), htake 18 h18]
  · intro s t ht
    rw [extractIds, List.mem_filterMap] at ht
    obtain ⟨i, _, hf⟩ := ht
    by_cases h15 : idMatchAt s i 15 = true
    · rw [if_pos h15] at hf
      have heq := Option.some.inj hf
      subst heq
      unfold idMatchAt at h15
      simp only [Bool.and_eq_true, decide_eq_true_eq] at h15
      exact ⟨Or.inl h15.1.1.1, h15.1.1.2⟩
    · rw [if_neg h15] at hf
      by_cases h18 : idMatchAt s i 18 = true
      · rw [if_pos h18] at hf
        have heq := Option.some.inj hf
        subst heq
        unfold idMatchAt at h18
        simp only [Bool.and_eq_true, decide_eq_true_eq] at h18
        exact ⟨Or.inr h18.1.1.1, h18.1.1.2⟩
      · rw [if_neg h18] at hf
        exact absurd hf (by simp)

/-- Witness for C8: a cleanly delimited 15-character token is extracted,
and an extracted token has the identifier shape. -/
theorem C8_boundary_extraction_witness :
    ("ABCDEFGH1234567".toList) ∈
      extractIds (("find ".toList) ++ ("ABCDEFGH1234567".toList)
        ++ (" now".toList)) ∧
    ((("ABCDEFGH1234567".toList).length = 15 ∨
      ("ABCDEFGH1234567".toList).length = 18) ∧
     ("ABCDEFGH1234567".toList).all isAlnum = true) :=
  ⟨C8_boundary_extraction.1 ("find ".toList) ("ABCDEFGH1234567".toList)
      (" now".toList) (by decide) (by decide) (by decide) (by decide),
   C8_boundary_extraction.2 ("ABCDEFGH1234567 ok".toList)
      ("ABCDEFGH1234567".toList) (by decide)⟩
